import Mathlib

/-!
# Gophermart loyalty service: order submission, balance and checksum

A shallow embedding of the Go sources

* `internal/utils/luhn.go`        (`ValidateLuhn`, `IsNumeric`)
* `internal/models/models.go`     (`Order`, `Withdrawal`, `Balance`, status constants)
* `internal/repository/repository.go` (the SQL statements of `PostgresRepository`)
* `internal/service/accrual.go`   (`AccrualService.GetOrderAccrual`)
* `internal/handlers/handlers.go` (`UploadOrder`, `WithdrawBalance`, `processOrder`)
* `internal/service/worker.go`    (`OrderProcessor.processLoop`, `processPendingOrders`)

Modelling conventions.

* A Go `string` is a Lean `String`; `for _, r := range s` walks `s.data`.
  (A Go string may also hold bytes that are not valid UTF-8; `range` turns
  them into U+FFFD and `strconv` sees bytes above 0x7f, both of which are
  rejected exactly like any other non-digit character.)
* Go `int` values in `ValidateLuhn` are natural numbers: the sum is at most
  nine times the length of the string, far below `2^63`.
* Numbers are rationals.  An amount stored in a table is the exact decimal
  the `NUMERIC(10, 2)` column holds: a value written to such a column is
  rounded to two decimals (`roundNumeric`, ties away from zero) and the
  statement fails when the rounded value has more than eight integer digits
  (`numeric10_2`).
* A `float64` that the Go code receives in a JSON body and hands on to the
  database (`req.Sum`, `accrualResp.Accrual`) is represented by the decimal
  number Go prints for it (`strconv.FormatFloat(x, 'f', -1, 64)`, the
  shortest decimal that reads back as `x`); this is the number in the body
  whenever that has at most 15 significant digits, and it is the number the
  driver sends for a `NUMERIC` parameter.  The value of the `float64` itself
  is `float64 d`, the binary64 number nearest to `d`.  The sums that
  `GetUserBalance` scans are exact decimals turned into `float64` the same
  way, and `balance.Current -= balance.Withdrawn` is a `float64` subtraction:
  `GetUserBalanceFloat64`.  `GetUserBalance` itself gives the two sums and
  their difference as exact numbers.  Numbers of magnitude `2^1024` and more
  have no `float64`; neither a JSON body nor a sum of stored amounts
  provides one.
* A text value written to a `VARCHAR(n)` column must have at most `n`
  characters and no NUL character (`fitsVarchar`), otherwise the statement
  fails.
* The two tables `orders` and `withdrawals` are lists of rows in insertion
  order.  The surrogate `id` and the timestamp columns are left out: no
  operation modelled here reads them.  The `users` table is not modelled;
  a user identity is that of a registered user, the one the authentication
  middleware found with `GetUserByID` and put into the request context.
* The storage failures modelled are those the statement and the table
  definitions of `createTables` decide: `UNIQUE (number)`, the `VARCHAR`
  lengths and the `NUMERIC(10, 2)` range.  Failures of the connection are
  outside the model.
* A handler receives the user identity found by `middleware.GetUserID`
  (`none` when there is none) and the request body as already read; the
  answer is the HTTP status code it writes.  The goroutine started by
  `go h.processOrder(orderNumber)` is recorded as the order number handed
  to it, and `processOrder` is a separate step that takes the reply of the
  accrual authority as an argument.
* Operations are executed one at a time (no interleaving), except where two
  calls of the repository method `WithdrawBalance` are run statement by
  statement under a schedule (`withdrawStep`, `runSchedule`).
* The worker loop is run on the finite sequence of events (ticks, stop) its
  `select` receives.
-/

namespace Gophermart

/-! ## `internal/utils/luhn.go` -/

/-- First loop of `ValidateLuhn`: collect the digit values, stop with `none`
(the `return false`) at the first rune outside `'0'..'9'`. -/
def luhnDigits : List Char → List Nat → Option (List Nat)
  | [], digits => some digits
  | r :: rest, digits =>
    if r.toNat < '0'.toNat || r.toNat > '9'.toNat then none
    else luhnDigits rest (digits ++ [r.toNat - '0'.toNat])

/-- Second loop of `ValidateLuhn`: `for i, digit := range digits`, with the
running index `i` and the running `sum`. -/
def luhnLoop (parity : Nat) : List Nat → Nat → Nat → Nat
  | [], _, sum => sum
  | digit :: rest, i, sum =>
    if i % 2 = parity then
      let digit := digit * 2
      if digit > 9 then luhnLoop parity rest (i + 1) (sum + (digit - 9))
      else luhnLoop parity rest (i + 1) (sum + digit)
    else luhnLoop parity rest (i + 1) (sum + digit)

/-- The function `ValidateLuhn` of `utils/luhn.go`. -/
def ValidateLuhn (number : String) : Bool :=
  match luhnDigits number.data [] with
  | none => false
  | some digits =>
    let sum := luhnLoop (digits.length % 2) digits 0 0
    sum % 10 == 0

/-! ### `strconv.ParseInt(s, 10, 64)` (Go standard library) -/

/-- The two error kinds of `strconv`: `ErrSyntax` and `ErrRange`. -/
inductive NumError where
  | malformed
  | outOfRange
deriving DecidableEq

/-- The constant `maxUint64` of `strconv`. -/
def maxUint64 : Nat := 2 ^ 64 - 1

/-- The digit loop of `strconv.ParseUint` for base 10 and 64 bits; `n` is the
`uint64` accumulator.  `cutoff` is `maxUint64/10 + 1`. -/
def parseUintLoop : List Char → Nat → Nat × Option NumError
  | [], n => (n, none)
  | c :: rest, n =>
    if '0'.toNat ≤ c.toNat ∧ c.toNat ≤ '9'.toNat then
      let d := c.toNat - '0'.toNat
      if n ≥ maxUint64 / 10 + 1 then (maxUint64, some NumError.outOfRange)
      else
        let n10 := n * 10
        let n1 := (n10 + d) % 2 ^ 64
        if n1 < n10 ∨ n1 > maxUint64 then (maxUint64, some NumError.outOfRange)
        else parseUintLoop rest n1
    else (0, some NumError.malformed)

/-- The call `strconv.ParseUint(s, 10, 64)`. -/
def ParseUint (s : List Char) : Nat × Option NumError :=
  if s = [] then (0, some NumError.malformed) else parseUintLoop s 0

/-- The call `strconv.ParseInt(s, 10, 64)`: optional sign, then `ParseUint`,
then the range check against `1 << 63`. -/
def ParseInt (s : String) : Int × Option NumError :=
  match s.data with
  | [] => (0, some NumError.malformed)
  | c :: rest =>
    let neg := decide (c = '-')
    let body := if c = '+' ∨ c = '-' then rest else c :: rest
    match ParseUint body with
    | (_, some NumError.malformed) => (0, some NumError.malformed)
    | (un, _) =>
      let cutoff : Nat := 2 ^ 63
      if !neg && decide (un ≥ cutoff) then ((cutoff : Int) - 1, some NumError.outOfRange)
      else if neg && decide (un > cutoff) then (-(cutoff : Int), some NumError.outOfRange)
      else (if neg then -(un : Int) else (un : Int), none)

/-- The function `IsNumeric` of `utils/luhn.go`: `err == nil` of `ParseInt`. -/
def IsNumeric (s : String) : Bool :=
  (ParseInt s).2.isNone

/-- The call `strconv.Atoi(s)`; on a 64-bit platform it accepts and rejects
the same strings as `ParseInt(s, 10, 64)` and returns the same value. -/
def Atoi (s : String) : Int × Option NumError :=
  ParseInt s

/-! ## `internal/models/models.go` -/

/-- A row of table `orders` (struct `models.Order`). -/
structure Order where
  Number : String
  UserID : Int
  Status : String
  Accrual : ℚ
deriving DecidableEq

/-- A row of table `withdrawals` (struct `models.Withdrawal`). -/
structure Withdrawal where
  UserID : Int
  Order : String
  Sum : ℚ
deriving DecidableEq

/-- The struct `models.Balance`. -/
structure Balance where
  Current : ℚ
  Withdrawn : ℚ
deriving DecidableEq

/-- The struct `models.AccrualResponse`. -/
structure AccrualResponse where
  Order : String
  Status : String
  Accrual : ℚ
deriving DecidableEq

def StatusNew : String := "NEW"

def StatusProcessing : String := "PROCESSING"

def StatusInvalid : String := "INVALID"

def StatusProcessed : String := "PROCESSED"

def StatusRegistered : String := "REGISTERED"

/-! ## Go `float64` and the PostgreSQL column types -/

/-- Round to the nearest integer, a tie to the even one. -/
def roundHalfEven (x : ℚ) : ℤ :=
  if x - ⌊x⌋ < 1 / 2 then ⌊x⌋
  else if 1 / 2 < x - ⌊x⌋ then ⌊x⌋ + 1
  else if ⌊x⌋ % 2 = 0 then ⌊x⌋ else ⌊x⌋ + 1

/-- The binary exponent of the last of the 53 bits of the `float64` nearest
to `q`; it is never below that of the subnormal numbers. -/
def float64Exponent (q : ℚ) : ℤ :=
  max (Int.log 2 |q| - 52) (-1074)

/-- The `float64` nearest to `q` (IEEE 754 binary64, round to nearest, ties
to even), as the number it is.  This is what `strconv.ParseFloat` returns
for the decimal `q` and what a `float64` operation returns when its exact
result is `q`. -/
def float64 (q : ℚ) : ℚ :=
  roundHalfEven (q / 2 ^ float64Exponent q) * 2 ^ float64Exponent q

/-- Rounding of PostgreSQL `NUMERIC` to two decimals: to the nearest
hundredth, a tie away from zero. -/
def roundNumeric (q : ℚ) : ℚ :=
  if 0 ≤ q then (⌊q * 100 + 1 / 2⌋ : ℚ) / 100 else -((⌊-q * 100 + 1 / 2⌋ : ℚ) / 100)

/-- Assignment of `q` to a `NUMERIC(10, 2)` column: the rounded value, or
`none` (`numeric field overflow`) when it does not stay below `10^8` in
magnitude. -/
def numeric10_2 (q : ℚ) : Option ℚ :=
  if |roundNumeric q| < 100000000 then some (roundNumeric q) else none

/-- A text value that a `VARCHAR(n)` column accepts: at most `n` characters,
none of them NUL. -/
def fitsVarchar (n : Nat) (s : String) : Bool :=
  decide (s.length ≤ n) && s.data.all (fun c => c.toNat != 0)

/-! ## `internal/repository/repository.go` -/

/-- The database: the rows of `orders` and of `withdrawals`. -/
structure Store where
  orders : List Order
  withdrawals : List Withdrawal
deriving DecidableEq

namespace PostgresRepository

/-- `INSERT INTO orders (user_id, number, status) VALUES ($1, $2, 'NEW')`;
`accrual` takes its default 0.  The insert fails when the number does not fit
`number VARCHAR(255)` and on `UNIQUE (number)`. -/
def CreateOrder (st : Store) (userID : Int) (orderNumber : String) : Except String Store :=
  if !fitsVarchar 255 orderNumber then
    Except.error "value too long for type character varying(255)"
  else if st.orders.any (fun o => o.Number == orderNumber) then
    Except.error "duplicate key value violates unique constraint"
  else
    Except.ok { st with orders := st.orders ++ [⟨orderNumber, userID, StatusNew, 0⟩] }

/-- `SELECT ... FROM orders WHERE number = $1`; `none` is `sql.ErrNoRows`. -/
def GetOrderByNumber (st : Store) (orderNumber : String) : Option Order :=
  st.orders.find? (fun o => o.Number == orderNumber)

/-- `UPDATE orders SET status = $1, accrual = $2 WHERE number = $3`.  The
statement fails, and changes nothing, when the status does not fit
`status VARCHAR(50)` or the accrual does not fit `accrual NUMERIC(10, 2)`;
otherwise every row with that number gets the status and the accrual rounded
to two decimals. -/
def UpdateOrderStatus (st : Store) (orderNumber status : String) (accrual : ℚ) :
    Except String Store :=
  if !fitsVarchar 50 status then
    Except.error "value too long for type character varying(50)"
  else
    match numeric10_2 accrual with
    | none => Except.error "numeric field overflow"
    | some stored =>
      Except.ok { st with orders := st.orders.map (fun o =>
        if o.Number = orderNumber then { o with Status := status, Accrual := stored } else o) }

/-- The two `SELECT COALESCE(SUM(..), 0)` queries of `GetUserBalance`, then
`balance.Current -= balance.Withdrawn`, with the amounts as exact numbers. -/
def GetUserBalance (st : Store) (userID : Int) : Balance :=
  let current := ((st.orders.filter
    (fun o => o.UserID == userID && o.Status == StatusProcessed)).map (fun o => o.Accrual)).sum
  let withdrawn := ((st.withdrawals.filter
    (fun w => w.UserID == userID)).map (fun w => w.Sum)).sum
  { Current := current - withdrawn, Withdrawn := withdrawn }

/-- The method `GetUserBalance` with the arithmetic of the Go code: each of
the two sums is scanned into a `float64`, and `balance.Current -=
balance.Withdrawn` is a `float64` subtraction.  The fields hold the values of
the two `float64` results. -/
def GetUserBalanceFloat64 (st : Store) (userID : Int) : Balance :=
  let current := float64 ((st.orders.filter
    (fun o => o.UserID == userID && o.Status == StatusProcessed)).map (fun o => o.Accrual)).sum
  let withdrawn := float64 ((st.withdrawals.filter
    (fun w => w.UserID == userID)).map (fun w => w.Sum)).sum
  { Current := float64 (current - withdrawn), Withdrawn := withdrawn }

/-- The repository method `WithdrawBalance`: read the balance, compare it in
`float64` with the amount, insert.  The insert fails when the order number
does not fit `order_number VARCHAR(255)` or the amount does not fit
`sum NUMERIC(10, 2)`; the row holds the amount rounded to two decimals. -/
def WithdrawBalance (st : Store) (userID : Int) (orderNumber : String) (amount : ℚ) :
    Except String Store :=
  let balance := GetUserBalanceFloat64 st userID
  if balance.Current < float64 amount then Except.error "insufficient funds"
  else if !fitsVarchar 255 orderNumber then
    Except.error "value too long for type character varying(255)"
  else
    match numeric10_2 amount with
    | none => Except.error "numeric field overflow"
    | some sum =>
      Except.ok { st with withdrawals := st.withdrawals ++ [⟨userID, orderNumber, sum⟩] }

end PostgresRepository

/-! ## `internal/service/accrual.go` -/

/-- What `httpClient.Do` and the body decoding deliver for one query: a
transport failure (also a timeout), or a response with its status code, its
`Retry-After` header and its body (`none` when reading or `json.Unmarshal`
fails). -/
inductive HTTPReply where
  | transportError
  | response (StatusCode : Nat) (RetryAfter : String) (body : Option AccrualResponse)
deriving DecidableEq

namespace AccrualService

/-- The method `GetOrderAccrual`: `Except.error` is a non-nil `error`,
`Except.ok none` is `(nil, nil)`. -/
def GetOrderAccrual (reply : HTTPReply) : Except String (Option AccrualResponse) :=
  match reply with
  | HTTPReply.transportError => Except.error "transport error"
  | HTTPReply.response StatusCode retryAfter body =>
    if StatusCode = 429 then
      if retryAfter ≠ "" ∧ (Atoi retryAfter).2 = none then
        Except.error ("rate limited, retry after " ++ toString (Atoi retryAfter).1 ++ " seconds")
      else Except.error "rate limited"
    else if StatusCode = 204 then Except.ok none
    else if StatusCode ≠ 200 then
      Except.error ("accrual service returned status " ++ toString StatusCode)
    else
      match body with
      | none => Except.error "invalid body"
      | some accrualResp => Except.ok (some accrualResp)

end AccrualService

/-! ## `internal/handlers/handlers.go` -/

/-- Outcome of `UploadOrder`: the HTTP status written, the database
afterwards, and the order number handed to `go h.processOrder(..)`, if any. -/
structure UploadResult where
  code : Nat
  store : Store
  spawned : Option String
deriving DecidableEq

/-- Outcome of the handler `WithdrawBalance`. -/
structure WithdrawResult where
  code : Nat
  store : Store
deriving DecidableEq

namespace Handler

/-- The handler `UploadOrder`; `user` is the result of `middleware.GetUserID`
and `body` the request body. -/
def UploadOrder (st : Store) (user : Option Int) (body : String) : UploadResult :=
  match user with
  | none => ⟨401, st, none⟩
  | some userID =>
    let orderNumber := body
    if orderNumber = "" then ⟨400, st, none⟩
    else if !IsNumeric orderNumber || !ValidateLuhn orderNumber then ⟨422, st, none⟩
    else
      match PostgresRepository.GetOrderByNumber st orderNumber with
      | some existingOrder =>
        if existingOrder.UserID = userID then ⟨200, st, none⟩
        else ⟨409, st, none⟩
      | none =>
        match PostgresRepository.CreateOrder st userID orderNumber with
        | Except.error _ => ⟨500, st, none⟩
        | Except.ok st1 => ⟨202, st1, some orderNumber⟩

/-- The handler `WithdrawBalance`; `req` is the decoded JSON body (`none`
when decoding fails). -/
def WithdrawBalance (st : Store) (user : Option Int) (req : Option (String × ℚ)) :
    WithdrawResult :=
  match user with
  | none => ⟨401, st⟩
  | some userID =>
    match req with
    | none => ⟨400, st⟩
    | some (order, sum) =>
      if !IsNumeric order || !ValidateLuhn order then ⟨422, st⟩
      else
        match PostgresRepository.WithdrawBalance st userID order sum with
        | Except.error err =>
          if err = "insufficient funds" then ⟨402, st⟩ else ⟨500, st⟩
        | Except.ok st1 => ⟨200, st1⟩

/-- The method `processOrder`, run with the reply the accrual authority gives
to its single query.  It returns when the first status write fails, and it
drops the error of the second one. -/
def processOrder (st : Store) (orderNumber : String) (reply : HTTPReply) : Store :=
  match PostgresRepository.UpdateOrderStatus st orderNumber StatusProcessing 0 with
  | Except.error _ => st
  | Except.ok st1 =>
    match AccrualService.GetOrderAccrual reply with
    | Except.error _ => st1
    | Except.ok none => st1
    | Except.ok (some accrualResp) =>
      if accrualResp.Status = StatusProcessed ∨ accrualResp.Status = StatusInvalid then
        match PostgresRepository.UpdateOrderStatus st1 orderNumber accrualResp.Status
            accrualResp.Accrual with
        | Except.error _ => st1
        | Except.ok st2 => st2
      else st1

end Handler

/-- The databases the service can produce: it starts from the empty tables of
`createTables` and changes them only through the two writing handlers and
through `processOrder`. -/
inductive Reachable : Store → Prop where
  | init : Reachable ⟨[], []⟩
  | upload (st : Store) (user : Option Int) (body : String) :
      Reachable st → Reachable (Handler.UploadOrder st user body).store
  | withdraw (st : Store) (user : Option Int) (req : Option (String × ℚ)) :
      Reachable st → Reachable (Handler.WithdrawBalance st user req).store
  | process (st : Store) (orderNumber : String) (reply : HTTPReply) :
      Reachable st → Reachable (Handler.processOrder st orderNumber reply)

/-! ## `WithdrawBalance` statement by statement

The repository method `WithdrawBalance` sends three statements to the
database, each on `r.db` directly and outside any transaction: the two
`SELECT`s of `GetUserBalance` and the `INSERT`.  Between two of them another
call may run its own statements. -/

/-- Where a call of the repository method `WithdrawBalance` stands: before
its first statement, after the first `SELECT` of `GetUserBalance` (with the
value scanned into `balance.Current`), after the second `SELECT` and
`balance.Current -= balance.Withdrawn`, or returned with its `error` (`none`
is `nil`).  The numbers are the values of the `float64` variables. -/
inductive WithdrawPC where
  | start
  | accrued (current : ℚ)
  | balanced (balance : Balance)
  | returned (err : Option String)
deriving DecidableEq

/-- A running call `WithdrawBalance(ctx, userID, orderNumber, amount)`. -/
structure WithdrawCall where
  userID : Int
  orderNumber : String
  amount : ℚ
  pc : WithdrawPC
deriving DecidableEq

/-- Two calls of `WithdrawBalance` running against the same database. -/
structure TwoCalls where
  store : Store
  first : WithdrawCall
  second : WithdrawCall
deriving DecidableEq

namespace PostgresRepository

/-- The next statement of a call of `WithdrawBalance`: the first `SELECT`
(its sum scanned into a `float64`), the second `SELECT` followed by the
`float64` subtraction, or the comparison `balance.Current < amount` followed
by the return of `"insufficient funds"` or by the `INSERT`, which fails as in
`WithdrawBalance`.  A call that has returned does nothing. -/
def withdrawStep (st : Store) (c : WithdrawCall) : Store × WithdrawCall :=
  match c.pc with
  | WithdrawPC.start =>
    (st, { c with pc := WithdrawPC.accrued (float64 ((st.orders.filter
      (fun o => o.UserID == c.userID && o.Status == StatusProcessed)).map
        (fun o => o.Accrual)).sum) })
  | WithdrawPC.accrued current =>
    let withdrawn := float64 ((st.withdrawals.filter
      (fun w => w.UserID == c.userID)).map (fun w => w.Sum)).sum
    (st, { c with pc := WithdrawPC.balanced ⟨float64 (current - withdrawn), withdrawn⟩ })
  | WithdrawPC.balanced balance =>
    if balance.Current < float64 c.amount then
      (st, { c with pc := WithdrawPC.returned (some "insufficient funds") })
    else if !fitsVarchar 255 c.orderNumber then
      (st, { c with
        pc := WithdrawPC.returned (some "value too long for type character varying(255)") })
    else
      match numeric10_2 c.amount with
      | none => (st, { c with pc := WithdrawPC.returned (some "numeric field overflow") })
      | some sum =>
        ({ st with withdrawals := st.withdrawals ++ [⟨c.userID, c.orderNumber, sum⟩] },
          { c with pc := WithdrawPC.returned none })
  | WithdrawPC.returned _ => (st, c)

/-- Run two calls under a schedule: `true` lets the first call execute its
next statement, `false` the second. -/
def runSchedule : List Bool → TwoCalls → TwoCalls
  | [], s => s
  | true :: rest, s =>
    runSchedule rest ⟨(withdrawStep s.store s.first).1, (withdrawStep s.store s.first).2, s.second⟩
  | false :: rest, s =>
    runSchedule rest ⟨(withdrawStep s.store s.second).1, s.first, (withdrawStep s.store s.second).2⟩

end PostgresRepository

/-- An interleaving of two calls: each call gets exactly its three turns. -/
def isInterleaving (sched : List Bool) : Prop :=
  sched.count true = 3 ∧ sched.count false = 3

/-- Two calls by the same user, both about to start. -/
def twoWithdrawals (st : Store) (userID : Int) (order1 order2 : String) (amount : ℚ) :
    TwoCalls :=
  ⟨st, ⟨userID, order1, amount, WithdrawPC.start⟩, ⟨userID, order2, amount, WithdrawPC.start⟩⟩

/-! ## `internal/service/worker.go` -/

/-- What the `select` of `processLoop` receives: a tick of the ticker or the
closing of `stopCh`. -/
inductive WorkerEvent where
  | tick
  | stop
deriving DecidableEq

namespace OrderProcessor

/-- The method `processPendingOrders`.  Its body is empty (it holds only a
comment), and an `OrderProcessor` has no repository: the database stays as it
is.  The second component lists the order numbers for which the accrual
authority was queried: none. -/
def processPendingOrders (st : Store) : Store × List String :=
  (st, [])

/-- The method `processLoop` on the events its `select` receives, in order:
a tick calls `processPendingOrders`, a stop returns. -/
def processLoop : List WorkerEvent → Store → Store × List String
  | [], st => (st, [])
  | WorkerEvent.stop :: _, st => (st, [])
  | WorkerEvent.tick :: rest, st =>
    ((processLoop rest (processPendingOrders st).1).1,
      (processPendingOrders st).2 ++ (processLoop rest (processPendingOrders st).1).2)

end OrderProcessor

/-! ## Definitions used to state the properties -/

/-- A rune in `'0'..'9'`. -/
def isDigitChar (c : Char) : Bool :=
  decide ('0'.toNat ≤ c.toNat) && decide (c.toNat ≤ '9'.toNat)

/-- The value of a decimal digit character. -/
def digitValue (c : Char) : Nat :=
  c.toNat - '0'.toNat

/-- Doubling of the Luhn algorithm: twice the digit, minus 9 when that
exceeds 9. -/
def luhnDouble (d : Nat) : Nat :=
  if d * 2 > 9 then d * 2 - 9 else d * 2

/-- Sum over digits listed from the right, the head standing at position
`pos` (counted from 1 at the rightmost digit): digits at even positions are
doubled, the others are taken as they are. -/
def luhnSumFromRight : Nat → List Nat → Nat
  | _, [] => 0
  | pos, d :: rest =>
    (if pos % 2 = 0 then luhnDouble d else d) + luhnSumFromRight (pos + 1) rest

/-- The Luhn sum of a string of digits: positions are counted from the right,
the 2nd, 4th, 6th, ... digit is doubled. -/
def LuhnSum (s : String) : Nat :=
  luhnSumFromRight 1 (s.data.map digitValue).reverse

/-- Sum over digits listed from the right, the head standing at position
`pos`: digits at odd positions are doubled, the others are taken as they
are. -/
def payloadSumFromRight : Nat → List Nat → Nat
  | _, [] => 0
  | pos, d :: rest =>
    (if pos % 2 = 1 then luhnDouble d else d) + payloadSumFromRight (pos + 1) rest

/-- The sum `T(p)` of a payload `p` without its check digit: the rightmost
digit of `p` and every second digit to its left are doubled. -/
def payloadSum (p : String) : Nat :=
  payloadSumFromRight 1 (p.data.map digitValue).reverse

/-- The check digit computed from a payload. -/
def checkDigit (p : String) : Nat :=
  (10 - payloadSum p % 10) % 10

/-- The number a list of decimal digit characters denotes, continuing from
the value `n` of the digits already read. -/
def decimalValueFrom : List Char → Nat → Nat
  | [], n => n
  | c :: rest, n => decimalValueFrom rest (n * 10 + digitValue c)

/-- The number a string of decimal digits denotes. -/
def decimalValue (s : String) : Nat :=
  decimalValueFrom s.data 0

/-- Every order number in the table passed the validation of `UploadOrder`. -/
def validNumbers (st : Store) : Prop :=
  ∀ o ∈ st.orders, IsNumeric o.Number = true ∧ ValidateLuhn o.Number = true

/-- Sum of the amounts of the withdrawals of user `u`: a withdrawal of another
user contributes nothing. -/
def withdrawnOf (u : Int) : List Withdrawal → ℚ
  | [] => 0
  | w :: rest => (if w.UserID = u then w.Sum else 0) + withdrawnOf u rest

/-- Sum of the accruals of the orders of user `u` whose status is PROCESSED:
every other order contributes nothing. -/
def accruedOf (u : Int) : List Order → ℚ
  | [] => 0
  | o :: rest =>
    (if o.UserID = u ∧ o.Status = StatusProcessed then o.Accrual else 0) + accruedOf u rest

/-- A number of 300 digits, 298 zeros followed by `18`: it denotes 18 and its
check digit is right. -/
def longOrderNumber : String :=
  String.mk (List.replicate 298 '0' ++ ['1', '8'])

/-! ## The checksum validator -/

theorem isDigitChar_iff (c : Char) :
    isDigitChar c = true ↔ 48 ≤ c.toNat ∧ c.toNat ≤ 57 := by
  simp [isDigitChar]

theorem digitValue_lt_of_isDigit (c : Char) (h : isDigitChar c = true) : digitValue c < 10 := by
  rw [isDigitChar_iff] at h
  have h0 : '0'.toNat = 48 := by decide
  unfold digitValue
  omega

theorem luhnDigits_eq (cs : List Char) (acc : List Nat) :
    luhnDigits cs acc =
      if cs.all isDigitChar then some (acc ++ cs.map digitValue) else none := by
  induction cs generalizing acc with
  | nil => simp [luhnDigits]
  | cons c rest ih =>
    have h0 : '0'.toNat = 48 := by decide
    have h9 : '9'.toNat = 57 := by decide
    unfold luhnDigits
    by_cases hc : isDigitChar c = true
    · have hc2 := (isDigitChar_iff c).1 hc
      have hn : ¬ (c.toNat < 48 ∨ c.toNat > 57) := by omega
      simp [h0, h9, hn, ih, hc, digitValue]
    · have hc2 : ¬ (48 ≤ c.toNat ∧ c.toNat ≤ 57) := fun h => hc ((isDigitChar_iff c).2 h)
      have hn : c.toNat < 48 ∨ c.toNat > 57 := by omega
      simp [h0, h9, hn, hc]

theorem luhnLoop_acc (parity : Nat) (ds : List Nat) (i sum : Nat) :
    luhnLoop parity ds i sum = sum + luhnLoop parity ds i 0 := by
  induction ds generalizing i sum with
  | nil => simp [luhnLoop]
  | cons d rest ih =>
    unfold luhnLoop
    by_cases h1 : i % 2 = parity
    · by_cases h2 : d * 2 > 9
      · simp only [h1, h2, if_true]
        rw [ih (i + 1) (sum + (d * 2 - 9)), ih (i + 1) (0 + (d * 2 - 9))]
        omega
      · simp only [h1, h2, if_true, if_false]
        rw [ih (i + 1) (sum + d * 2), ih (i + 1) (0 + d * 2)]
        omega
    · simp only [h1, if_false]
      rw [ih (i + 1) (sum + d), ih (i + 1) (0 + d)]
      omega

theorem luhnLoop_cons (parity : Nat) (d : Nat) (rest : List Nat) (i : Nat) :
    luhnLoop parity (d :: rest) i 0 =
      (if i % 2 = parity then luhnDouble d else d) + luhnLoop parity rest (i + 1) 0 := by
  conv_lhs => unfold luhnLoop
  by_cases h1 : i % 2 = parity
  · by_cases h2 : d * 2 > 9
    · simp only [h1, h2, if_true, luhnDouble]
      rw [luhnLoop_acc, Nat.zero_add]
    · simp only [h1, h2, if_true, if_false, luhnDouble]
      rw [luhnLoop_acc, Nat.zero_add]
  · simp only [h1, if_false]
    rw [luhnLoop_acc, Nat.zero_add]

theorem luhnSumFromRight_append (l : List Nat) (d pos : Nat) :
    luhnSumFromRight pos (l ++ [d]) =
      luhnSumFromRight pos l + (if (pos + l.length) % 2 = 0 then luhnDouble d else d) := by
  induction l generalizing pos with
  | nil => simp [luhnSumFromRight]
  | cons a rest ih =>
    have e : pos + 1 + rest.length = pos + (rest.length + 1) := by omega
    rw [List.cons_append, luhnSumFromRight, luhnSumFromRight, ih, List.length_cons, e]
    omega

theorem luhnLoop_eq_fromRight (parity : Nat) (ds : List Nat) (i : Nat)
    (hp : (i + ds.length) % 2 = parity) :
    luhnLoop parity ds i 0 = luhnSumFromRight 1 ds.reverse := by
  induction ds generalizing i with
  | nil => simp [luhnLoop, luhnSumFromRight]
  | cons d rest ih =>
    rw [luhnLoop_cons, List.reverse_cons, luhnSumFromRight_append, List.length_reverse]
    rw [ih (i + 1) (by simp only [List.length_cons] at hp; omega)]
    simp only [List.length_cons] at hp
    have hiff : (i % 2 = parity) ↔ ((1 + rest.length) % 2 = 0) := by omega
    by_cases h : i % 2 = parity
    · simp only [h, hiff.1 h, if_true]
      omega
    · have h2 : ¬ ((1 + rest.length) % 2 = 0) := fun h3 => h (hiff.2 h3)
      simp only [h, h2, if_false]
      omega

theorem ValidateLuhn_eq (s : String) :
    ValidateLuhn s =
      (s.data.all isDigitChar &&
        (luhnLoop (s.data.length % 2) (s.data.map digitValue) 0 0 % 10 == 0)) := by
  unfold ValidateLuhn
  rw [luhnDigits_eq]
  by_cases h : s.data.all isDigitChar = true
  · simp [h]
  · simp [h]

theorem ValidateLuhn_iff (s : String) :
    ValidateLuhn s = true ↔
      (∀ c ∈ s.data, isDigitChar c = true) ∧ LuhnSum s % 10 = 0 := by
  rw [ValidateLuhn_eq, LuhnSum,
    ← luhnLoop_eq_fromRight (s.data.length % 2) (s.data.map digitValue) 0 (by simp)]
  simp [List.all_eq_true]

theorem payloadSumFromRight_eq (pos : Nat) (l : List Nat) :
    payloadSumFromRight pos l = luhnSumFromRight (pos + 1) l := by
  induction l generalizing pos with
  | nil => simp [payloadSumFromRight, luhnSumFromRight]
  | cons d rest ih =>
    rw [payloadSumFromRight, luhnSumFromRight, ih]
    have hiff : (pos % 2 = 1) ↔ ((pos + 1) % 2 = 0) := by omega
    by_cases h : pos % 2 = 1
    · simp only [h, hiff.1 h, if_true]
    · have h2 : ¬ ((pos + 1) % 2 = 0) := fun h3 => h (hiff.2 h3)
      simp only [h, h2, if_false]

theorem LuhnSum_push (p : String) (c : Char) :
    LuhnSum (p.push c) = digitValue c + payloadSum p := by
  have e : (p.push c).data = p.data ++ [c] := rfl
  rw [LuhnSum, payloadSum, e, payloadSumFromRight_eq]
  simp [luhnSumFromRight]

theorem digitChar_toNat (k : Nat) (h : k < 10) : (Char.ofNat (48 + k)).toNat = 48 + k := by
  interval_cases k <;> decide

theorem char_eq_of_toNat_eq (c d : Char) (h : c.toNat = d.toNat) : c = d :=
  Char.ext (UInt32.ext h)

theorem ValidateLuhn_push_iff (p : String) (hp : ∀ ch ∈ p.data, isDigitChar ch = true)
    (c : Char) (hc : isDigitChar c = true) :
    ValidateLuhn (p.push c) = true ↔ digitValue c = checkDigit p := by
  have e : (p.push c).data = p.data ++ [c] := rfl
  have hlt := digitValue_lt_of_isDigit c hc
  rw [ValidateLuhn_iff, LuhnSum_push, e, checkDigit]
  constructor
  · rintro ⟨_, h⟩
    omega
  · intro h
    refine ⟨?_, by omega⟩
    intro x hx
    rcases List.mem_append.1 hx with hx | hx
    · exact hp x hx
    · rw [List.mem_singleton.1 hx]; exact hc

theorem luhnDouble_lt (d : Nat) (h : d < 10) : luhnDouble d < 10 := by
  unfold luhnDouble; split <;> omega

theorem luhnDouble_inj (x y : Nat) (hx : x < 10) (hy : y < 10)
    (h : luhnDouble x = luhnDouble y) : x = y := by
  unfold luhnDouble at h
  split at h <;> split at h <;> omega

theorem luhnLoop_set_ne (parity : Nat) (ds : List Nat) (i k y : Nat) (hk : k < ds.length)
    (hx : ds[k] < 10) (hy : y < 10) (hne : y ≠ ds[k]) :
    luhnLoop parity (ds.set k y) i 0 % 10 ≠ luhnLoop parity ds i 0 % 10 := by
  induction ds generalizing i k with
  | nil => simp at hk
  | cons x rest ih =>
    cases k with
    | zero =>
      simp only [List.set_cons_zero, List.getElem_cons_zero] at hx hne ⊢
      rw [luhnLoop_cons, luhnLoop_cons]
      by_cases h : i % 2 = parity
      · simp only [h, if_true]
        have h1 := luhnDouble_lt x hx
        have h2 := luhnDouble_lt y hy
        have h3 : luhnDouble y ≠ luhnDouble x := fun e => hne (luhnDouble_inj y x hy hx e)
        omega
      · simp only [h, if_false]
        omega
    | succ k =>
      simp only [List.set_cons_succ, List.getElem_cons_succ, List.length_cons] at hx hne hk ⊢
      rw [luhnLoop_cons, luhnLoop_cons]
      have := ih (i + 1) k (by omega) hx hne
      omega

/-! ## `strconv.ParseInt` on digit strings -/

open PostgresRepository Handler

theorem le_decimalValueFrom (cs : List Char) (n : Nat) : n ≤ decimalValueFrom cs n := by
  induction cs generalizing n with
  | nil => simp [decimalValueFrom]
  | cons c rest ih =>
    rw [decimalValueFrom]
    have := ih (n * 10 + digitValue c)
    omega

theorem parseUintLoop_digits (cs : List Char) (n : Nat)
    (hall : ∀ c ∈ cs, isDigitChar c = true) (hn : n < 18446744073709551616) :
    parseUintLoop cs n =
      if decimalValueFrom cs n < 18446744073709551616 then (decimalValueFrom cs n, none)
      else (maxUint64, some NumError.outOfRange) := by
  induction cs generalizing n with
  | nil => simp [parseUintLoop, decimalValueFrom, hn]
  | cons c rest ih =>
    have hc := (isDigitChar_iff c).1 (hall c (List.mem_cons_self _ _))
    have hrest : ∀ x ∈ rest, isDigitChar x = true := fun x hx => hall x (List.mem_cons_of_mem _ hx)
    have h0 : '0'.toNat = 48 := by decide
    have h9 : '9'.toNat = 57 := by decide
    have hmax : maxUint64 = 18446744073709551615 := by decide
    have hmono := le_decimalValueFrom rest (n * 10 + digitValue c)
    have hdv : digitValue c = c.toNat - 48 := by rw [digitValue, h0]
    rw [parseUintLoop, decimalValueFrom]
    simp only [h0, h9, hc, and_self, if_true, hmax]
    by_cases hcut : n ≥ 18446744073709551615 / 10 + 1
    · have hbig : ¬ decimalValueFrom rest (n * 10 + digitValue c) < 18446744073709551616 := by
        omega
      simp only [hcut, if_true, hbig, if_false]
    · simp only [hcut, if_false]
      by_cases hwrap : n * 10 + (c.toNat - 48) < 18446744073709551616
      · have e : (n * 10 + (c.toNat - 48)) % 2 ^ 64 = n * 10 + (c.toNat - 48) :=
          Nat.mod_eq_of_lt (by norm_num; exact hwrap)
        have hno : ¬ ((n * 10 + (c.toNat - 48)) < n * 10 ∨
            (n * 10 + (c.toNat - 48)) > 18446744073709551615) := by omega
        rw [e]
        simp only [hno, if_false]
        rw [ih _ hrest hwrap, hdv, hmax]
      · have hbig : ¬ decimalValueFrom rest (n * 10 + digitValue c) < 18446744073709551616 := by
          omega
        have hw : (n * 10 + (c.toNat - 48)) % 2 ^ 64 < n * 10 ∨
            (n * 10 + (c.toNat - 48)) % 2 ^ 64 > 18446744073709551615 := by
          left
          norm_num
          omega
        simp only [hw, if_true, hbig, if_false]

theorem IsNumeric_of_digits (s : String) (hne : s ≠ "")
    (hall : ∀ c ∈ s.data, isDigitChar c = true) :
    IsNumeric s = true ↔ decimalValue s < 9223372036854775808 := by
  obtain ⟨cs⟩ := s
  cases cs with
  | nil => exact absurd rfl hne
  | cons c rest =>
    have hc := (isDigitChar_iff c).1 (hall c (List.mem_cons_self _ _))
    have hplus : c ≠ '+' := by
      intro e; rw [e] at hc; revert hc; decide
    have hminus : c ≠ '-' := by
      intro e; rw [e] at hc; revert hc; decide
    have hmax : maxUint64 = 18446744073709551615 := by decide
    have hloop := parseUintLoop_digits (c :: rest) 0 hall (by norm_num)
    unfold IsNumeric ParseInt ParseUint decimalValue
    simp only [hplus, hminus, or_self, if_false, decide_False, List.cons_ne_nil, hloop]
    by_cases hv : decimalValueFrom (c :: rest) 0 < 18446744073709551616
    · simp only [hv, if_true]
      by_cases h63 : decimalValueFrom (c :: rest) 0 < 9223372036854775808
      · have : ¬ (9223372036854775808 ≤ decimalValueFrom (c :: rest) 0) := by omega
        simp [this, h63]
      · have : 9223372036854775808 ≤ decimalValueFrom (c :: rest) 0 := by omega
        simp [this, h63]
    · have h63 : ¬ decimalValueFrom (c :: rest) 0 < 9223372036854775808 := by omega
      simp [hv, h63, hmax]

theorem IsNumeric_ne_empty (N : String) (h : IsNumeric N = true) : N ≠ "" := by
  intro e
  rw [e] at h
  revert h
  decide

/-! ## `float64` and `NUMERIC(10, 2)` -/

theorem roundHalfEven_eq (x : ℚ) (n : ℤ) (h1 : (n : ℚ) - 1 / 2 < x) (h2 : x < n + 1 / 2) :
    roundHalfEven x = n := by
  unfold roundHalfEven
  by_cases hx : (n : ℚ) ≤ x
  · have hf : ⌊x⌋ = n := Int.floor_eq_iff.2 ⟨hx, by linarith⟩
    rw [hf]
    have : x - n < 1 / 2 := by linarith
    rw [if_pos this]
  · have hx2 : x < n := not_le.1 hx
    have hf : ⌊x⌋ = n - 1 := by
      apply Int.floor_eq_iff.2
      push_cast
      constructor <;> linarith
    rw [hf]
    have h3 : ¬ (x - ((n - 1 : ℤ) : ℚ) < 1 / 2) := by push_cast; linarith
    have h4 : 1 / 2 < x - ((n - 1 : ℤ) : ℚ) := by push_cast; linarith
    rw [if_neg h3, if_pos h4]
    omega

theorem float64Exponent_eq (q : ℚ) (k : ℤ) (hq : 0 < |q|) (h1 : (2 : ℚ) ^ k ≤ |q|)
    (h2 : |q| < (2 : ℚ) ^ (k + 1)) (hk : -1022 ≤ k) : float64Exponent q = k - 52 := by
  have hlog : Int.log 2 |q| = k := by
    apply le_antisymm
    · have := (Int.lt_zpow_iff_log_lt (b := 2) (by norm_num) hq).1 (by exact_mod_cast h2)
      omega
    · exact (Int.zpow_le_iff_le_log (b := 2) (by norm_num) hq).1 (by exact_mod_cast h1)
  unfold float64Exponent
  rw [hlog]
  omega

theorem float64_eq_pos (q : ℚ) (k n : ℤ) (hq : 0 < q) (h1 : (2 : ℚ) ^ k ≤ q)
    (h2 : q < (2 : ℚ) ^ (k + 1)) (hk : -1022 ≤ k)
    (h3 : (n : ℚ) - 1 / 2 < q / 2 ^ (k - 52)) (h4 : q / 2 ^ (k - 52) < n + 1 / 2) :
    float64 q = n * 2 ^ (k - 52) := by
  unfold float64
  rw [float64Exponent_eq q k (by rw [abs_of_pos hq]; exact hq) (by rw [abs_of_pos hq]; exact h1)
    (by rw [abs_of_pos hq]; exact h2) hk, roundHalfEven_eq _ n h3 h4]

theorem float64_eq_neg (q : ℚ) (k n : ℤ) (hq : q < 0) (h1 : (2 : ℚ) ^ k ≤ -q)
    (h2 : -q < (2 : ℚ) ^ (k + 1)) (hk : -1022 ≤ k)
    (h3 : (n : ℚ) - 1 / 2 < q / 2 ^ (k - 52)) (h4 : q / 2 ^ (k - 52) < n + 1 / 2) :
    float64 q = n * 2 ^ (k - 52) := by
  unfold float64
  rw [float64Exponent_eq q k (by rw [abs_of_neg hq]; linarith)
    (by rw [abs_of_neg hq]; exact h1) (by rw [abs_of_neg hq]; exact h2) hk,
    roundHalfEven_eq _ n h3 h4]

theorem float64_zero : float64 0 = 0 := by
  unfold float64
  simp [roundHalfEven]

theorem float64_10 : float64 10 = 10 := by
  rw [float64_eq_pos 10 3 5629499534213120 (by norm_num) (by norm_num) (by norm_num)
    (by norm_num) (by norm_num) (by norm_num)]
  norm_num

theorem float64_7 : float64 7 = 7 := by
  rw [float64_eq_pos 7 2 7881299347898368 (by norm_num) (by norm_num) (by norm_num)
    (by norm_num) (by norm_num) (by norm_num)]
  norm_num

theorem roundNumeric_hundredths (n : ℤ) : roundNumeric (n / 100) = n / 100 := by
  unfold roundNumeric
  by_cases h : (0 : ℚ) ≤ n / 100
  · rw [if_pos h]
    have hf : ⌊(n : ℚ) / 100 * 100 + 1 / 2⌋ = n := by
      rw [Int.floor_eq_iff]
      constructor <;> linarith
    rw [hf]
  · rw [if_neg h]
    have hf : ⌊-((n : ℚ) / 100) * 100 + 1 / 2⌋ = -n := by
      rw [Int.floor_eq_iff]
      push_cast
      constructor <;> linarith
    rw [hf]
    push_cast
    ring

theorem roundNumeric_intCast (n : ℤ) : roundNumeric n = n := by
  have h := roundNumeric_hundredths (n * 100)
  push_cast at h
  rw [mul_div_assoc, div_self (by norm_num), mul_one] at h
  exact h

theorem numeric10_2_intCast (n : ℤ) (h1 : -100000000 < n) (h2 : n < 100000000) :
    numeric10_2 n = some (n : ℚ) := by
  unfold numeric10_2
  rw [roundNumeric_intCast]
  have : |(n : ℚ)| < 100000000 := by
    rw [abs_lt]
    constructor
    · exact_mod_cast h1
    · exact_mod_cast h2
  rw [if_pos this]

theorem numeric10_2_zero : numeric10_2 0 = some 0 := by
  have := numeric10_2_intCast 0 (by norm_num) (by norm_num)
  simpa using this

theorem numeric10_2_eq_some (q stored : ℚ) (h : numeric10_2 q = some stored) :
    stored = roundNumeric q ∧ |roundNumeric q| < 100000000 := by
  unfold numeric10_2 at h
  by_cases hb : |roundNumeric q| < 100000000
  · rw [if_pos hb] at h
    exact ⟨(Option.some.inj h).symm, hb⟩
  · rw [if_neg hb] at h
    cases h

/-! ## The tables and the handlers -/

theorem fitsVarchar_of_digits (n : Nat) (s : String)
    (h : ∀ c ∈ s.data, isDigitChar c = true) : fitsVarchar n s = decide (s.length ≤ n) := by
  unfold fitsVarchar
  have hall : s.data.all (fun c => c.toNat != 0) = true := by
    rw [List.all_eq_true]
    intro c hc
    have := (isDigitChar_iff c).1 (h c hc)
    simp only [bne_iff_ne, ne_eq]
    omega
  rw [hall, Bool.and_true]

theorem fitsVarchar_of_valid (n : Nat) (s : String) (h : ValidateLuhn s = true)
    (hlen : s.length ≤ n) : fitsVarchar n s = true := by
  rw [fitsVarchar_of_digits n s ((ValidateLuhn_iff s).1 h).1]
  exact decide_eq_true hlen

theorem fitsVarchar_length (n : Nat) (s : String) (h : fitsVarchar n s = true) :
    s.length ≤ n := by
  unfold fitsVarchar at h
  rw [Bool.and_eq_true] at h
  exact of_decide_eq_true h.1

theorem GetOrderByNumber_eq_none_iff (st : Store) (N : String) :
    GetOrderByNumber st N = none ↔ ∀ o ∈ st.orders, o.Number ≠ N := by
  simp [GetOrderByNumber, List.find?_eq_none]

theorem GetOrderByNumber_some (st : Store) (N : String) (o : Order)
    (h : GetOrderByNumber st N = some o) : o ∈ st.orders ∧ o.Number = N := by
  unfold GetOrderByNumber at h
  refine ⟨List.mem_of_find?_eq_some h, ?_⟩
  simpa using List.find?_some h

theorem GetOrderByNumber_isSome_of_mem (st : Store) (o : Order) (h : o ∈ st.orders) :
    ∃ o1, GetOrderByNumber st o.Number = some o1 := by
  cases hg : GetOrderByNumber st o.Number with
  | some o1 => exact ⟨o1, rfl⟩
  | none => exact absurd rfl ((GetOrderByNumber_eq_none_iff st o.Number).1 hg o h)

theorem any_number_eq_false (st : Store) (N : String) (h : GetOrderByNumber st N = none) :
    st.orders.any (fun o => o.Number == N) = false := by
  have h1 := (GetOrderByNumber_eq_none_iff st N).1 h
  rw [Bool.eq_false_iff]
  intro hany
  obtain ⟨o, ho, hn⟩ := List.any_eq_true.1 hany
  exact h1 o ho (by simpa using hn)

theorem CreateOrder_of_none (st : Store) (u : Int) (N : String)
    (hfit : fitsVarchar 255 N = true) (h : GetOrderByNumber st N = none) :
    CreateOrder st u N =
      Except.ok { st with orders := st.orders ++ [⟨N, u, StatusNew, 0⟩] } := by
  simp [CreateOrder, hfit, any_number_eq_false st N h]

theorem CreateOrder_too_long (st : Store) (u : Int) (N : String)
    (hfit : fitsVarchar 255 N = false) :
    CreateOrder st u N = Except.error "value too long for type character varying(255)" := by
  simp [CreateOrder, hfit]

theorem CreateOrder_ok (st st1 : Store) (u : Int) (N : String)
    (h : CreateOrder st u N = Except.ok st1) :
    fitsVarchar 255 N = true ∧ GetOrderByNumber st N = none ∧
      st1 = { st with orders := st.orders ++ [⟨N, u, StatusNew, 0⟩] } := by
  unfold CreateOrder at h
  cases hfit : fitsVarchar 255 N
  · simp [hfit] at h
  · cases hany : st.orders.any (fun o => o.Number == N)
    · simp [hfit, hany] at h
      refine ⟨rfl, ?_, h.symm⟩
      rw [GetOrderByNumber_eq_none_iff]
      intro o ho hn
      have : st.orders.any (fun o => o.Number == N) = true :=
        List.any_eq_true.2 ⟨o, ho, by simpa using hn⟩
      rw [hany] at this
      cases this
    · simp [hfit, hany] at h

theorem UploadOrder_valid_some (st : Store) (u : Int) (N : String) (o : Order)
    (h1 : IsNumeric N = true) (h2 : ValidateLuhn N = true)
    (h : GetOrderByNumber st N = some o) :
    UploadOrder st (some u) N =
      if o.UserID = u then ⟨200, st, none⟩ else ⟨409, st, none⟩ := by
  have hne := IsNumeric_ne_empty N h1
  simp [UploadOrder, hne, h1, h2, h]

theorem UploadOrder_valid_none (st : Store) (u : Int) (N : String)
    (h1 : IsNumeric N = true) (h2 : ValidateLuhn N = true) (hlen : N.length ≤ 255)
    (h : GetOrderByNumber st N = none) :
    UploadOrder st (some u) N =
      ⟨202, { st with orders := st.orders ++ [⟨N, u, StatusNew, 0⟩] }, some N⟩ := by
  have hne := IsNumeric_ne_empty N h1
  simp [UploadOrder, hne, h1, h2, h,
    CreateOrder_of_none st u N (fitsVarchar_of_valid 255 N h2 hlen) h]

theorem UploadOrder_valid_long (st : Store) (u : Int) (N : String)
    (h1 : IsNumeric N = true) (h2 : ValidateLuhn N = true) (hlen : 255 < N.length)
    (h : GetOrderByNumber st N = none) :
    UploadOrder st (some u) N = ⟨500, st, none⟩ := by
  have hne := IsNumeric_ne_empty N h1
  have hfit : fitsVarchar 255 N = false := by
    rw [fitsVarchar_of_digits 255 N ((ValidateLuhn_iff N).1 h2).1]
    exact decide_eq_false (by omega)
  simp [UploadOrder, hne, h1, h2, h, CreateOrder_too_long st u N hfit]

theorem UpdateOrderStatus_ok (st : Store) (M status : String) (a stored : ℚ)
    (hs : fitsVarchar 50 status = true) (ha : numeric10_2 a = some stored) :
    UpdateOrderStatus st M status a =
      Except.ok ⟨st.orders.map (fun o =>
        if o.Number = M then { o with Status := status, Accrual := stored } else o),
        st.withdrawals⟩ := by
  simp [UpdateOrderStatus, hs, ha]

theorem UpdateOrderStatus_bad_status (st : Store) (M status : String) (a : ℚ)
    (hs : fitsVarchar 50 status = false) :
    UpdateOrderStatus st M status a =
      Except.error "value too long for type character varying(50)" := by
  simp [UpdateOrderStatus, hs]

theorem UpdateOrderStatus_overflow (st : Store) (M status : String) (a : ℚ)
    (hs : fitsVarchar 50 status = true) (ha : numeric10_2 a = none) :
    UpdateOrderStatus st M status a = Except.error "numeric field overflow" := by
  simp [UpdateOrderStatus, hs, ha]

theorem UpdateOrderStatus_eq_ok (st st1 : Store) (M status : String) (a : ℚ)
    (h : UpdateOrderStatus st M status a = Except.ok st1) :
    ∃ stored, fitsVarchar 50 status = true ∧ numeric10_2 a = some stored ∧
      st1 = ⟨st.orders.map (fun o =>
        if o.Number = M then { o with Status := status, Accrual := stored } else o),
        st.withdrawals⟩ := by
  cases hs : fitsVarchar 50 status
  · rw [UpdateOrderStatus_bad_status st M status a hs] at h
    cases h
  · cases ha : numeric10_2 a with
    | none =>
      rw [UpdateOrderStatus_overflow st M status a hs ha] at h
      cases h
    | some stored =>
      rw [UpdateOrderStatus_ok st M status a stored hs ha] at h
      exact ⟨stored, rfl, rfl, (Except.ok.inj h).symm⟩

theorem UpdateOrderStatus_processing (st : Store) (M : String) :
    UpdateOrderStatus st M StatusProcessing 0 =
      Except.ok ⟨st.orders.map (fun o =>
        if o.Number = M then { o with Status := StatusProcessing, Accrual := 0 } else o),
        st.withdrawals⟩ :=
  UpdateOrderStatus_ok st M StatusProcessing 0 0 (by decide) numeric10_2_zero

theorem fitsVarchar_terminal (status : String)
    (h : status = StatusProcessed ∨ status = StatusInvalid) : fitsVarchar 50 status = true := by
  rcases h with h | h <;> rw [h] <;> decide

theorem map_status_keys (orders : List Order) (M status : String) (a : ℚ) :
    (orders.map (fun o =>
        if o.Number = M then { o with Status := status, Accrual := a } else o)).map
      (fun o => (o.Number, o.UserID)) = orders.map (fun o => (o.Number, o.UserID)) := by
  simp only [List.map_map]
  apply List.map_congr_left
  intro o _
  by_cases h : o.Number = M <;> simp [h]

theorem UpdateOrderStatus_keys (st st1 : Store) (M status : String) (a : ℚ)
    (h : UpdateOrderStatus st M status a = Except.ok st1) :
    st1.orders.map (fun o => (o.Number, o.UserID)) =
      st.orders.map (fun o => (o.Number, o.UserID)) := by
  obtain ⟨stored, _, _, e⟩ := UpdateOrderStatus_eq_ok st st1 M status a h
  rw [e]
  exact map_status_keys st.orders M status stored

theorem UpdateOrderStatus_withdrawals (st st1 : Store) (M status : String) (a : ℚ)
    (h : UpdateOrderStatus st M status a = Except.ok st1) :
    st1.withdrawals = st.withdrawals := by
  obtain ⟨stored, _, _, e⟩ := UpdateOrderStatus_eq_ok st st1 M status a h
  rw [e]

theorem GetOrderAccrual_terminal (h : String) (r : AccrualResponse) :
    AccrualService.GetOrderAccrual (HTTPReply.response 200 h (some r)) = Except.ok (some r) := by
  simp [AccrualService.GetOrderAccrual]

theorem GetOrderAccrual_ok_some (reply : HTTPReply) (r : AccrualResponse)
    (hr : AccrualService.GetOrderAccrual reply = Except.ok (some r)) :
    ∃ h, reply = HTTPReply.response 200 h (some r) := by
  cases reply with
  | transportError => simp [AccrualService.GetOrderAccrual] at hr
  | response code hdr body =>
    unfold AccrualService.GetOrderAccrual at hr
    simp only at hr
    by_cases h429 : code = 429
    · rw [if_pos h429] at hr
      split at hr <;> cases hr
    · rw [if_neg h429] at hr
      by_cases h204 : code = 204
      · rw [if_pos h204] at hr
        cases hr
      · rw [if_neg h204] at hr
        by_cases h200 : code = 200
        · rw [if_neg (not_not.2 h200)] at hr
          cases body with
          | none => cases hr
          | some b =>
            simp only at hr
            injection hr with e
            injection e with e
            exact ⟨hdr, by rw [h200, e]⟩
        · rw [if_pos h200] at hr
          cases hr

theorem processOrder_terminal (st : Store) (N h : String) (r : AccrualResponse) (stored : ℚ)
    (hs : r.Status = StatusProcessed ∨ r.Status = StatusInvalid)
    (ha : numeric10_2 r.Accrual = some stored) :
    processOrder st N (HTTPReply.response 200 h (some r)) =
      ⟨(st.orders.map (fun o =>
          if o.Number = N then { o with Status := StatusProcessing, Accrual := 0 } else o)).map
        (fun o => if o.Number = N then { o with Status := r.Status, Accrual := stored } else o),
        st.withdrawals⟩ := by
  unfold processOrder
  rw [UpdateOrderStatus_processing, GetOrderAccrual_terminal]
  simp only [hs, if_true]
  rw [UpdateOrderStatus_ok _ N r.Status r.Accrual stored (fitsVarchar_terminal _ hs) ha]

theorem processOrder_overflow (st : Store) (N h : String) (r : AccrualResponse)
    (hs : r.Status = StatusProcessed ∨ r.Status = StatusInvalid)
    (ha : numeric10_2 r.Accrual = none) :
    processOrder st N (HTTPReply.response 200 h (some r)) =
      ⟨st.orders.map (fun o =>
          if o.Number = N then { o with Status := StatusProcessing, Accrual := 0 } else o),
        st.withdrawals⟩ := by
  unfold processOrder
  rw [UpdateOrderStatus_processing, GetOrderAccrual_terminal]
  simp only [hs, if_true]
  rw [UpdateOrderStatus_overflow _ N r.Status r.Accrual (fitsVarchar_terminal _ hs) ha]

theorem processOrder_other (st : Store) (N : String) (reply : HTTPReply)
    (hn : ¬ ∃ h r, reply = HTTPReply.response 200 h (some r) ∧
      (r.Status = StatusProcessed ∨ r.Status = StatusInvalid)) :
    processOrder st N reply =
      ⟨st.orders.map (fun o =>
          if o.Number = N then { o with Status := StatusProcessing, Accrual := 0 } else o),
        st.withdrawals⟩ := by
  unfold processOrder
  rw [UpdateOrderStatus_processing]
  cases hg : AccrualService.GetOrderAccrual reply with
  | error e => rfl
  | ok x =>
    cases x with
    | none => rfl
    | some r =>
      obtain ⟨h, e⟩ := GetOrderAccrual_ok_some reply r hg
      have hs : ¬ (r.Status = StatusProcessed ∨ r.Status = StatusInvalid) :=
        fun hs => hn ⟨h, r, e, hs⟩
      simp only [hs, if_false]

theorem processOrder_keys_withdrawals (st : Store) (M : String) (reply : HTTPReply) :
    (processOrder st M reply).orders.map (fun o => (o.Number, o.UserID)) =
      st.orders.map (fun o => (o.Number, o.UserID)) ∧
    (processOrder st M reply).withdrawals = st.withdrawals := by
  by_cases hc : ∃ h r, reply = HTTPReply.response 200 h (some r) ∧
      (r.Status = StatusProcessed ∨ r.Status = StatusInvalid)
  · obtain ⟨h, r, e, hs⟩ := hc
    rw [e]
    cases ha : numeric10_2 r.Accrual with
    | none =>
      rw [processOrder_overflow st M h r hs ha]
      exact ⟨map_status_keys st.orders M StatusProcessing 0, rfl⟩
    | some stored =>
      rw [processOrder_terminal st M h r stored hs ha]
      refine ⟨?_, rfl⟩
      simp only
      rw [map_status_keys, map_status_keys]
  · rw [processOrder_other st M reply hc]
    exact ⟨map_status_keys st.orders M StatusProcessing 0, rfl⟩

theorem processOrder_keys (st : Store) (M : String) (reply : HTTPReply) :
    (processOrder st M reply).orders.map (fun o => (o.Number, o.UserID)) =
      st.orders.map (fun o => (o.Number, o.UserID)) :=
  (processOrder_keys_withdrawals st M reply).1

theorem processOrder_withdrawals (st : Store) (M : String) (reply : HTTPReply) :
    (processOrder st M reply).withdrawals = st.withdrawals :=
  (processOrder_keys_withdrawals st M reply).2

theorem mem_keys_of_mem (st : Store) (o : Order) (h : o ∈ st.orders) :
    (o.Number, o.UserID) ∈ st.orders.map (fun o => (o.Number, o.UserID)) :=
  List.mem_map.2 ⟨o, h, rfl⟩

theorem numbers_of_keys (st : Store) :
    st.orders.map Order.Number = (st.orders.map (fun o => (o.Number, o.UserID))).map Prod.fst := by
  simp [List.map_map, Function.comp_def]

theorem find_map_status (orders : List Order) (M N status : String) (a : ℚ) :
    (orders.map (fun o =>
        if o.Number = M then { o with Status := status, Accrual := a } else o)).find?
      (fun o => o.Number == N) =
      (orders.find? (fun o => o.Number == N)).map (fun o =>
        if o.Number = M then { o with Status := status, Accrual := a } else o) := by
  have hcomp : ((fun o : Order => o.Number == N) ∘ (fun o : Order =>
      if o.Number = M then { o with Status := status, Accrual := a } else o)) =
      (fun o : Order => o.Number == N) := by
    funext o
    by_cases h : o.Number = M <;> simp [h]
  rw [List.find?_map, hcomp]

theorem validNumbers_of_numbers_eq (st st1 : Store)
    (h : st1.orders.map Order.Number = st.orders.map Order.Number)
    (hv : validNumbers st) : validNumbers st1 := by
  intro o ho
  have hm : o.Number ∈ st1.orders.map Order.Number := List.mem_map.2 ⟨o, ho, rfl⟩
  rw [h] at hm
  obtain ⟨o1, ho1, e⟩ := List.mem_map.1 hm
  rw [← e]
  exact hv o1 ho1

theorem UploadOrder_store_cases (st : Store) (user : Option Int) (body : String) :
    (UploadOrder st user body).store = st ∨
    ∃ u, IsNumeric body = true ∧ ValidateLuhn body = true ∧
      (UploadOrder st user body).store =
        { st with orders := st.orders ++ [⟨body, u, StatusNew, 0⟩] } := by
  cases user with
  | none => exact Or.inl rfl
  | some u =>
    by_cases hne : body = ""
    · left; simp [UploadOrder, hne]
    · cases h1 : IsNumeric body
      · left; simp [UploadOrder, hne, h1]
      · cases h2 : ValidateLuhn body
        · left; simp [UploadOrder, hne, h1, h2]
        · cases hg : GetOrderByNumber st body with
          | some o =>
            left
            rw [UploadOrder_valid_some st u body o h1 h2 hg]
            by_cases hu : o.UserID = u
            · rw [if_pos hu]
            · rw [if_neg hu]
          | none =>
            cases hc : CreateOrder st u body with
            | error e => left; simp [UploadOrder, hne, h1, h2, hg, hc]
            | ok st1 =>
              right
              obtain ⟨_, _, e⟩ := CreateOrder_ok st st1 u body hc
              refine ⟨u, rfl, rfl, ?_⟩
              simp [UploadOrder, hne, h1, h2, hg, hc, e]

theorem UploadOrder_validNumbers (st : Store) (user : Option Int) (body : String)
    (hv : validNumbers st) : validNumbers (UploadOrder st user body).store := by
  rcases UploadOrder_store_cases st user body with e | ⟨u, h1, h2, e⟩
  · rw [e]; exact hv
  · rw [e]
    intro o ho
    rcases List.mem_append.1 ho with ho | ho
    · exact hv o ho
    · rw [List.mem_singleton.1 ho]
      exact ⟨h1, h2⟩

theorem WithdrawBalance_orders (st st1 : Store) (u : Int) (ord : String) (amt : ℚ)
    (h : PostgresRepository.WithdrawBalance st u ord amt = Except.ok st1) :
    st1.orders = st.orders := by
  unfold PostgresRepository.WithdrawBalance at h
  simp only at h
  split at h
  · cases h
  · split at h
    · cases h
    · split at h
      · cases h
      · rw [← Except.ok.inj h]

theorem Handler_WithdrawBalance_orders (st : Store) (user : Option Int)
    (req : Option (String × ℚ)) :
    (Handler.WithdrawBalance st user req).store.orders = st.orders := by
  unfold Handler.WithdrawBalance
  cases user with
  | none => rfl
  | some u =>
    cases req with
    | none => rfl
    | some r =>
      obtain ⟨order, sum⟩ := r
      simp only
      split
      · rfl
      · cases hw : PostgresRepository.WithdrawBalance st u order sum with
        | error e =>
          simp only
          split <;> rfl
        | ok st1 => exact WithdrawBalance_orders st st1 u order sum hw

theorem Reachable_validNumbers (st : Store) (h : Reachable st) : validNumbers st := by
  induction h with
  | init => intro o ho; simp at ho
  | upload st user body _ ih => exact UploadOrder_validNumbers st user body ih
  | withdraw st user req _ ih =>
    exact validNumbers_of_numbers_eq st _ (by rw [Handler_WithdrawBalance_orders]) ih
  | process st M reply _ ih =>
    refine validNumbers_of_numbers_eq st _ ?_ ih
    rw [numbers_of_keys, processOrder_keys, ← numbers_of_keys]

theorem withdrawn_eq (u : Int) (ws : List Withdrawal) :
    ((ws.filter (fun w => w.UserID == u)).map (fun w => w.Sum)).sum = withdrawnOf u ws := by
  induction ws with
  | nil => rfl
  | cons w rest ih =>
    by_cases h : w.UserID = u
    · simp [List.filter_cons, h, withdrawnOf, ih]
    · simp [List.filter_cons, h, withdrawnOf, ih]

theorem accrued_eq (u : Int) (os : List Order) :
    ((os.filter (fun o => o.UserID == u && o.Status == StatusProcessed)).map
      (fun o => o.Accrual)).sum = accruedOf u os := by
  induction os with
  | nil => rfl
  | cons o rest ih =>
    by_cases h1 : o.UserID = u
    · by_cases h2 : o.Status = StatusProcessed
      · simp [List.filter_cons, h1, h2, accruedOf, ih]
      · simp [List.filter_cons, h1, h2, accruedOf, ih]
    · simp [List.filter_cons, h1, accruedOf, ih]

theorem GetUserBalance_eq (st : Store) (u : Int) :
    GetUserBalance st u =
      ⟨accruedOf u st.orders - withdrawnOf u st.withdrawals, withdrawnOf u st.withdrawals⟩ := by
  unfold GetUserBalance
  simp only [withdrawn_eq, accrued_eq]

theorem GetUserBalanceFloat64_eq (st : Store) (u : Int) :
    GetUserBalanceFloat64 st u =
      ⟨float64 (float64 (accruedOf u st.orders) - float64 (withdrawnOf u st.withdrawals)),
        float64 (withdrawnOf u st.withdrawals)⟩ := by
  unfold GetUserBalanceFloat64
  simp only [withdrawn_eq, accrued_eq]

theorem withdrawnOf_append (u : Int) (a b : List Withdrawal) :
    withdrawnOf u (a ++ b) = withdrawnOf u a + withdrawnOf u b := by
  induction a with
  | nil => simp [withdrawnOf]
  | cons w rest ih => simp [withdrawnOf, ih, add_assoc]

theorem accruedOf_append (u : Int) (a b : List Order) :
    accruedOf u (a ++ b) = accruedOf u a + accruedOf u b := by
  induction a with
  | nil => simp [accruedOf]
  | cons o rest ih => simp [accruedOf, ih, add_assoc]

theorem GetOrderByNumber_append_new (st : Store) (N : String) (o : Order)
    (hnew : GetOrderByNumber st N = none) (ho : o.Number = N) :
    GetOrderByNumber ⟨st.orders ++ [o], st.withdrawals⟩ N = some o := by
  unfold GetOrderByNumber at *
  simp only [List.find?_append, hnew, Option.none_or]
  simp [List.find?_cons, ho]

set_option maxRecDepth 100000 in
/-- The 300-digit number passes both guards of the handlers. -/
theorem longOrderNumber_valid :
    IsNumeric longOrderNumber = true ∧ ValidateLuhn longOrderNumber = true ∧
      longOrderNumber.length = 300 := by
  decide

theorem numeric10_2_of_bounds (q stored : ℚ) (h : roundNumeric q = stored)
    (h1 : -100000000 < stored) (h2 : stored < 100000000) : numeric10_2 q = some stored := by
  unfold numeric10_2
  rw [h, if_pos (abs_lt.2 ⟨h1, h2⟩)]

theorem GetOrderByNumber_map_status (st : Store) (M N status : String) (a : ℚ) :
    GetOrderByNumber ⟨st.orders.map (fun o =>
        if o.Number = M then { o with Status := status, Accrual := a } else o),
        st.withdrawals⟩ N =
      (GetOrderByNumber st N).map (fun o =>
        if o.Number = M then { o with Status := status, Accrual := a } else o) := by
  unfold GetOrderByNumber
  exact find_map_status st.orders M N status a

/-- `IsNumeric` is `strconv.ParseInt`, which fails on a string of digits that
denotes `2^63` or more: `"10000000000000000008"` has a right check digit and is
answered 422. -/
theorem IsNumeric_rejects_valid_checksum :
    ValidateLuhn "10000000000000000008" = true ∧ IsNumeric "10000000000000000008" = false ∧
    (UploadOrder ⟨[], []⟩ (some 1) "10000000000000000008").code = 422 := by
  decide

theorem processLoop_eq (events : List WorkerEvent) (st : Store) :
    OrderProcessor.processLoop events st = (st, []) := by
  induction events with
  | nil => rfl
  | cons e rest ih =>
    cases e with
    | tick => simp [OrderProcessor.processLoop, OrderProcessor.processPendingOrders, ih]
    | stop => rfl

theorem float64_20 : float64 20 = 20 := by
  rw [float64_eq_pos 20 4 5629499534213120 (by norm_num) (by norm_num) (by norm_num)
    (by norm_num) (by norm_num) (by norm_num)]
  norm_num

theorem float64_neg_10 : float64 (-10) = -10 := by
  rw [float64_eq_neg (-10) 3 (-5629499534213120) (by norm_num) (by norm_num) (by norm_num)
    (by norm_num) (by norm_num) (by norm_num)]
  norm_num

theorem withdrawStep_start (st : Store) (u : Int) (o : String) (a : ℚ) :
    withdrawStep st ⟨u, o, a, WithdrawPC.start⟩ =
      (st, ⟨u, o, a, WithdrawPC.accrued (float64 (accruedOf u st.orders))⟩) := by
  simp only [withdrawStep, accrued_eq]

theorem withdrawStep_accrued (st : Store) (u : Int) (o : String) (a cur : ℚ) :
    withdrawStep st ⟨u, o, a, WithdrawPC.accrued cur⟩ =
      (st, ⟨u, o, a, WithdrawPC.balanced
        ⟨float64 (cur - float64 (withdrawnOf u st.withdrawals)),
          float64 (withdrawnOf u st.withdrawals)⟩⟩) := by
  simp only [withdrawStep, withdrawn_eq]

theorem withdrawStep_insufficient (st : Store) (u : Int) (o : String) (a : ℚ) (b : Balance)
    (h : b.Current < float64 a) :
    withdrawStep st ⟨u, o, a, WithdrawPC.balanced b⟩ =
      (st, ⟨u, o, a, WithdrawPC.returned (some "insufficient funds")⟩) := by
  simp only [withdrawStep, h, if_true]

theorem withdrawStep_insert (st : Store) (u : Int) (o : String) (a sum : ℚ) (b : Balance)
    (h : ¬ b.Current < float64 a) (hfit : fitsVarchar 255 o = true)
    (hsum : numeric10_2 a = some sum) :
    withdrawStep st ⟨u, o, a, WithdrawPC.balanced b⟩ =
      (⟨st.orders, st.withdrawals ++ [⟨u, o, sum⟩]⟩, ⟨u, o, a, WithdrawPC.returned none⟩) := by
  simp [withdrawStep, h, hfit, hsum]

/-- Three uninterrupted statements of one call give what the repository method
`WithdrawBalance` gives. -/
theorem withdrawStep_thrice (st : Store) (u : Int) (o : String) (a : ℚ) :
    withdrawStep (withdrawStep (withdrawStep st ⟨u, o, a, WithdrawPC.start⟩).1
        (withdrawStep st ⟨u, o, a, WithdrawPC.start⟩).2).1
      (withdrawStep (withdrawStep st ⟨u, o, a, WithdrawPC.start⟩).1
        (withdrawStep st ⟨u, o, a, WithdrawPC.start⟩).2).2 =
      match PostgresRepository.WithdrawBalance st u o a with
      | Except.ok st1 => (st1, ⟨u, o, a, WithdrawPC.returned none⟩)
      | Except.error e => (st, ⟨u, o, a, WithdrawPC.returned (some e)⟩) := by
  rw [withdrawStep_start, withdrawStep_accrued]
  simp only [withdrawStep, PostgresRepository.WithdrawBalance, GetUserBalanceFloat64_eq]
  split
  · rfl
  · split
    · rfl
    · cases numeric10_2 a <;> rfl

/-! ## The claims -/

/-- C1. `ValidateLuhn s` returns true exactly when every character of `s` is a
decimal digit and the Luhn sum of `s` (positions counted from the right, the
2nd, 4th, 6th, ... digit doubled, minus 9 when the doubled value exceeds 9) is
divisible by 10.  The equivalence holds for every string, so in particular for
every non-empty one.  A string with a non-digit character is rejected, for
odd length (`"1234abc"`) and for even length (`"1234ab"`). -/
theorem C1_ValidateLuhn_iff_digits_and_luhn_sum (s : String) :
    (ValidateLuhn s = true ↔
      (∀ c ∈ s.data, isDigitChar c = true) ∧ LuhnSum s % 10 = 0) ∧
    ((∃ c ∈ s.data, isDigitChar c = false) → ValidateLuhn s = false) ∧
    ValidateLuhn "1234abc" = false ∧ ValidateLuhn "1234ab" = false := by
  refine ⟨ValidateLuhn_iff s, ?_, by decide, by decide⟩
  rintro ⟨c, hc, hd⟩
  cases hv : ValidateLuhn s
  · rfl
  · have := ((ValidateLuhn_iff s).1 hv).1 c hc
    rw [hd] at this
    exact absurd this (by decide)

/-- C2, as stated, fails: the 300-digit number `longOrderNumber` passes both
guards of `UploadOrder` and the table holds no such order, yet the submission
is answered 500 and nothing is stored, because the `INSERT` into
`number VARCHAR(255)` fails; a second submission fares the same. -/
theorem C2_long_number_is_not_accepted :
    IsNumeric longOrderNumber = true ∧ ValidateLuhn longOrderNumber = true ∧
    GetOrderByNumber ⟨[], []⟩ longOrderNumber = none ∧
    UploadOrder ⟨[], []⟩ (some 1) longOrderNumber = ⟨500, ⟨[], []⟩, none⟩ ∧
    UploadOrder (UploadOrder ⟨[], []⟩ (some 1) longOrderNumber).store (some 1)
      longOrderNumber = ⟨500, ⟨[], []⟩, none⟩ := by
  have hv := longOrderNumber_valid
  have hlen : 255 < longOrderNumber.length := by rw [hv.2.2]; decide
  have hnone : GetOrderByNumber ⟨[], []⟩ longOrderNumber = none := rfl
  have h := UploadOrder_valid_long ⟨[], []⟩ 1 longOrderNumber hv.1 hv.2.1 hlen hnone
  refine ⟨hv.1, hv.2.1, hnone, h, ?_⟩
  rw [h]
  exact h

/-- C2, amended.  Idempotent submission.  Let `N` pass the validation of
`UploadOrder`, have at most 255 characters (the width of `orders.number`),
and let the table hold no order numbered `N`.  The first submission by `u`
answers 202, appends one order `N` owned by `u` in status NEW and starts
`processOrder` for `N`.  A second submission by `u`, made either at once or
after that processing step has run with any reply of the authority, answers
200, leaves the database as it is and starts nothing; the table then holds
exactly one order numbered `N`, and it is owned by `u`. -/
theorem C2_idempotent_submission (st : Store) (u : Int) (N : String)
    (hnum : IsNumeric N = true) (hluhn : ValidateLuhn N = true) (hlen : N.length ≤ 255)
    (hnew : GetOrderByNumber st N = none) :
    (UploadOrder st (some u) N).code = 202 ∧
    (UploadOrder st (some u) N).spawned = some N ∧
    (UploadOrder st (some u) N).store.orders = st.orders ++ [⟨N, u, StatusNew, 0⟩] ∧
    (UploadOrder st (some u) N).store.withdrawals = st.withdrawals ∧
    ∀ mid : Store,
      (mid = (UploadOrder st (some u) N).store ∨
        ∃ reply, mid = processOrder (UploadOrder st (some u) N).store N reply) →
      (UploadOrder mid (some u) N).code = 200 ∧
      (UploadOrder mid (some u) N).store = mid ∧
      (UploadOrder mid (some u) N).spawned = none ∧
      (mid.orders.map Order.Number).count N = 1 ∧
      (∀ o ∈ mid.orders, o.Number = N → o.UserID = u) := by
  have hfirst : UploadOrder st (some u) N =
      ⟨202, { st with orders := st.orders ++ [⟨N, u, StatusNew, 0⟩] }, some N⟩ := by
    exact UploadOrder_valid_none st u N hnum hluhn hlen hnew
  rw [hfirst]
  refine ⟨rfl, rfl, rfl, rfl, ?_⟩
  intro mid hmid
  have hold := (GetOrderByNumber_eq_none_iff st N).1 hnew
  have hkeys : mid.orders.map (fun o => (o.Number, o.UserID)) =
      st.orders.map (fun o => (o.Number, o.UserID)) ++ [(N, u)] := by
    rcases hmid with h | ⟨reply, h⟩
    · rw [h]; simp
    · rw [h, processOrder_keys]; simp
  have howner : ∀ o ∈ mid.orders, o.Number = N → o.UserID = u := by
    intro o ho hn
    have hm := mem_keys_of_mem mid o ho
    rw [hkeys, List.mem_append] at hm
    rcases hm with hm | hm
    · obtain ⟨o1, ho1, e⟩ := List.mem_map.1 hm
      have e1 : o1.Number = o.Number := congrArg Prod.fst e
      exact absurd (e1.trans hn) (hold o1 ho1)
    · have e := List.mem_singleton.1 hm
      exact congrArg Prod.snd e
  have hcount : (mid.orders.map Order.Number).count N = 1 := by
    rw [numbers_of_keys, hkeys, List.map_append, List.count_append]
    have h0 : ((st.orders.map (fun o => (o.Number, o.UserID))).map Prod.fst).count N = 0 := by
      rw [List.count_eq_zero]
      intro hm
      obtain ⟨p, hp, e⟩ := List.mem_map.1 hm
      obtain ⟨o1, ho1, e1⟩ := List.mem_map.1 hp
      rw [← e1] at e
      exact hold o1 ho1 e
    rw [h0]
    simp
  have hex : ∃ o, GetOrderByNumber mid N = some o := by
    have hpos : 0 < (mid.orders.map Order.Number).count N := by omega
    obtain ⟨o, ho, e⟩ := List.mem_map.1 (List.count_pos_iff.1 hpos)
    rw [← e]
    exact GetOrderByNumber_isSome_of_mem mid o ho
  obtain ⟨o, ho⟩ := hex
  have ho2 := GetOrderByNumber_some mid N o ho
  have hu : o.UserID = u := howner o ho2.1 ho2.2
  have hsecond : UploadOrder mid (some u) N = ⟨200, mid, none⟩ := by
    rw [UploadOrder_valid_some mid u N o hnum hluhn ho]
    simp [hu]
  rw [hsecond]
  exact ⟨rfl, rfl, rfl, hcount, howner⟩

/-- Instance of C2 amended: user 7 submits `"79927398713"` twice to the empty database. -/
theorem C2_idempotent_submission_witness :
    (UploadOrder ⟨[], []⟩ (some 7) "79927398713").code = 202 ∧
    (UploadOrder (UploadOrder ⟨[], []⟩ (some 7) "79927398713").store (some 7) "79927398713").code
      = 200 ∧
    (UploadOrder (UploadOrder ⟨[], []⟩ (some 7) "79927398713").store (some 7)
      "79927398713").store.orders = [⟨"79927398713", 7, StatusNew, 0⟩] :=
  have h := C2_idempotent_submission ⟨[], []⟩ 7 "79927398713" (by decide) (by decide)
    (by decide) (by decide)
  have h2 := h.2.2.2.2 _ (Or.inl rfl)
  ⟨h.1, h2.1, by rw [h2.2.1, h.2.2.1]; rfl⟩

/-- C3. Ownership conflict.  In every database the service can reach, if order
`N` exists and is owned by `A`, a submission of `N` by another user `B` answers
409, leaves the database unchanged (so `N` keeps its owner, status and
accrual, and no order is created) and starts no processing step. -/
theorem C3_ownership_conflict (st : Store) (hst : Reachable st) (N : String) (A B : Int)
    (o : Order) (hN : GetOrderByNumber st N = some o) (hA : o.UserID = A) (hB : B ≠ A) :
    UploadOrder st (some B) N = ⟨409, st, none⟩ ∧
    GetOrderByNumber (UploadOrder st (some B) N).store N = some o := by
  have hmem := GetOrderByNumber_some st N o hN
  have hv := Reachable_validNumbers st hst o hmem.1
  rw [hmem.2] at hv
  have hne : ¬ o.UserID = B := by rw [hA]; exact fun e => hB e.symm
  have e : UploadOrder st (some B) N = ⟨409, st, none⟩ := by
    rw [UploadOrder_valid_some st B N o hv.1 hv.2 hN]
    simp [hne]
  rw [e]
  exact ⟨rfl, hN⟩

/-- Instance of C3: user 1 owns `"79927398713"`, user 2 submits it. -/
theorem C3_ownership_conflict_witness :
    Reachable (UploadOrder ⟨[], []⟩ (some 1) "79927398713").store ∧
    GetOrderByNumber (UploadOrder ⟨[], []⟩ (some 1) "79927398713").store "79927398713" =
      some ⟨"79927398713", 1, StatusNew, 0⟩ ∧
    UploadOrder (UploadOrder ⟨[], []⟩ (some 1) "79927398713").store (some 2) "79927398713" =
      ⟨409, (UploadOrder ⟨[], []⟩ (some 1) "79927398713").store, none⟩ :=
  ⟨Reachable.upload _ _ _ Reachable.init, by decide,
    (C3_ownership_conflict (UploadOrder ⟨[], []⟩ (some 1) "79927398713").store
      (Reachable.upload _ _ _ Reachable.init) "79927398713" 1 2
      ⟨"79927398713", 1, StatusNew, 0⟩ (by decide) rfl (by decide)).1⟩

/-- C4. `GetUserBalance u` returns `Withdrawn` = the sum of the amounts of the
withdrawals of `u`, and `Current` = the sum of the accruals of the PROCESSED
orders of `u` minus `Withdrawn`.  An order of another user, or an order that
is not PROCESSED (whatever accrual it carries), and a withdrawal of another
user can be removed from the tables without changing the balance of `u`. -/
theorem C4_balance_is_processed_accruals_minus_withdrawals (st : Store) (u : Int) :
    (GetUserBalance st u).Withdrawn = withdrawnOf u st.withdrawals ∧
    (GetUserBalance st u).Current =
      accruedOf u st.orders - (GetUserBalance st u).Withdrawn ∧
    (∀ (o : Order) (pre post : List Order), (o.UserID ≠ u ∨ o.Status ≠ StatusProcessed) →
      GetUserBalance ⟨pre ++ o :: post, st.withdrawals⟩ u =
        GetUserBalance ⟨pre ++ post, st.withdrawals⟩ u) ∧
    (∀ (w : Withdrawal) (pre post : List Withdrawal), w.UserID ≠ u →
      GetUserBalance ⟨st.orders, pre ++ w :: post⟩ u =
        GetUserBalance ⟨st.orders, pre ++ post⟩ u) := by
  refine ⟨?_, ?_, ?_, ?_⟩
  · rw [GetUserBalance_eq]
  · rw [GetUserBalance_eq]
  · intro o pre post ho
    have hz : ¬ (o.UserID = u ∧ o.Status = StatusProcessed) := by
      rintro ⟨h1, h2⟩
      rcases ho with h | h
      · exact h h1
      · exact h h2
    simp only [GetUserBalance_eq, accruedOf_append, accruedOf, hz, if_false, zero_add]
  · intro w pre post hw
    simp only [GetUserBalance_eq, withdrawnOf_append, withdrawnOf, hw, if_false, zero_add]

/-- Instance of C4: a PROCESSING order of user 1 and a withdrawal of user 2 do
not count; 10 accrued and 4 withdrawn give the balance 6 / 4. -/
theorem C4_balance_witness :
    (2 : Int) ≠ 1 ∧ StatusProcessing ≠ StatusProcessed ∧
    GetUserBalance ⟨[⟨"79927398713", 1, StatusProcessed, 10⟩, ⟨"26", 1, StatusProcessing, 5⟩],
        [⟨1, "59", 4⟩, ⟨2, "67", 1⟩]⟩ 1 =
      GetUserBalance ⟨[⟨"79927398713", 1, StatusProcessed, 10⟩], [⟨1, "59", 4⟩]⟩ 1 ∧
    GetUserBalance ⟨[⟨"79927398713", 1, StatusProcessed, 10⟩], [⟨1, "59", 4⟩]⟩ 1 = ⟨6, 4⟩ :=
  ⟨by decide, by decide,
    ((C4_balance_is_processed_accruals_minus_withdrawals
        ⟨[⟨"79927398713", 1, StatusProcessed, 10⟩, ⟨"26", 1, StatusProcessing, 5⟩],
          [⟨1, "59", 4⟩, ⟨2, "67", 1⟩]⟩ 1).2.2.2
        ⟨2, "67", 1⟩ [⟨1, "59", 4⟩] [] (by decide)).trans
      ((C4_balance_is_processed_accruals_minus_withdrawals
        ⟨[⟨"79927398713", 1, StatusProcessed, 10⟩], [⟨1, "59", 4⟩]⟩ 1).2.2.1
        ⟨"26", 1, StatusProcessing, 5⟩ [⟨"79927398713", 1, StatusProcessed, 10⟩] []
        (Or.inr (by decide))),
    by simp +decide [GetUserBalance]; norm_num⟩

/-- C7, as stated, fails: a status write on a PROCESSED order with accrual 10
succeeds and moves it to PROCESSING with accrual 0. -/
theorem C7_terminal_order_overwritten :
    GetOrderByNumber ⟨[⟨"79927398713", 1, StatusProcessed, 10⟩], []⟩ "79927398713" =
      some ⟨"79927398713", 1, StatusProcessed, 10⟩ ∧
    UpdateOrderStatus ⟨[⟨"79927398713", 1, StatusProcessed, 10⟩], []⟩
        "79927398713" StatusProcessing 0 =
      Except.ok ⟨[⟨"79927398713", 1, StatusProcessing, 0⟩], []⟩ ∧
    GetOrderByNumber ⟨[⟨"79927398713", 1, StatusProcessing, 0⟩], []⟩ "79927398713" =
      some ⟨"79927398713", 1, StatusProcessing, 0⟩ := by
  refine ⟨by decide, ?_, by decide⟩
  rw [UpdateOrderStatus_processing]
  simp

/-- C7, amended.  `UpdateOrderStatus N status accrual` does not look at the
status the order has.  When the new status fits `VARCHAR(50)` (the four
statuses of the service do) and the accrual rounded to two decimals stays
below `10^8` in magnitude (an accrual of at most two decimals is its own
rounding), the write succeeds: whatever the status of order `N` was,
PROCESSED and INVALID included, afterwards `N` has the status passed and the
rounded accrual and the same owner, and orders with another number, the
withdrawals and the number of rows are unchanged.  Otherwise the write fails
with an error. -/
theorem C7_status_write_is_unconditional (st : Store) (N status : String) (accrual : ℚ) :
    (fitsVarchar 50 status = true → |roundNumeric accrual| < 100000000 →
      ∃ st1, UpdateOrderStatus st N status accrual = Except.ok st1 ∧
        (∀ o, GetOrderByNumber st N = some o →
          GetOrderByNumber st1 N = some ⟨N, o.UserID, status, roundNumeric accrual⟩) ∧
        (∀ M, M ≠ N → GetOrderByNumber st1 M = GetOrderByNumber st M) ∧
        st1.withdrawals = st.withdrawals ∧ st1.orders.length = st.orders.length) ∧
    ((fitsVarchar 50 status = false ∨ ¬ |roundNumeric accrual| < 100000000) →
      ∃ e, UpdateOrderStatus st N status accrual = Except.error e) ∧
    (fitsVarchar 50 StatusNew = true ∧ fitsVarchar 50 StatusProcessing = true ∧
      fitsVarchar 50 StatusInvalid = true ∧ fitsVarchar 50 StatusProcessed = true) ∧
    (∀ n : ℤ, accrual = n / 100 → roundNumeric accrual = accrual) := by
  refine ⟨?_, ?_, ⟨by decide, by decide, by decide, by decide⟩, ?_⟩
  · intro hs hr
    have ha : numeric10_2 accrual = some (roundNumeric accrual) := by
      unfold numeric10_2; rw [if_pos hr]
    refine ⟨_, UpdateOrderStatus_ok st N status accrual _ hs ha, ?_, ?_, rfl, by simp⟩
    · intro o ho
      have hn := (GetOrderByNumber_some st N o ho).2
      rw [GetOrderByNumber_map_status, ho]
      simp [hn]
    · intro M hM
      rw [GetOrderByNumber_map_status]
      cases hg : GetOrderByNumber st M with
      | none => rfl
      | some o =>
        have hn := (GetOrderByNumber_some st M o hg).2
        have : ¬ o.Number = N := by rw [hn]; exact hM
        simp [this]
  · intro hbad
    cases hs : fitsVarchar 50 status
    · exact ⟨_, UpdateOrderStatus_bad_status st N status accrual hs⟩
    · rcases hbad with hb | hb
      · rw [hs] at hb; cases hb
      · have ha : numeric10_2 accrual = none := by
          unfold numeric10_2; rw [if_neg hb]
        exact ⟨_, UpdateOrderStatus_overflow st N status accrual hs ha⟩
  · intro n hn
    rw [hn]
    exact roundNumeric_hundredths n

/-- Instance of C7 amended: the write `PROCESSING, 0` on a PROCESSED order. -/
theorem C7_status_write_is_unconditional_witness :
    fitsVarchar 50 StatusProcessing = true ∧ |roundNumeric 0| < (100000000 : ℚ) ∧
    ∃ st1, UpdateOrderStatus ⟨[⟨"79927398713", 1, StatusProcessed, 10⟩], []⟩
        "79927398713" StatusProcessing 0 = Except.ok st1 ∧
      GetOrderByNumber st1 "79927398713" =
        some ⟨"79927398713", 1, StatusProcessing, roundNumeric 0⟩ :=
  have hr0 : roundNumeric 0 = 0 := by
    have h := roundNumeric_intCast 0
    norm_num at h
    exact h
  have hb : |roundNumeric 0| < (100000000 : ℚ) := by rw [hr0]; norm_num
  have h := (C7_status_write_is_unconditional ⟨[⟨"79927398713", 1, StatusProcessed, 10⟩], []⟩
    "79927398713" StatusProcessing 0).1 (by decide) hb
  ⟨by decide, hb, h.choose, h.choose_spec.1,
    h.choose_spec.2.1 ⟨"79927398713", 1, StatusProcessed, 10⟩ (by decide)⟩

/-- C8, as stated, fails: the 300-digit number `longOrderNumber` is accepted by
`ValidateLuhn` (and denotes 18), yet it is answered neither accepted nor
already accepted nor conflict but 500, because it does not fit
`number VARCHAR(255)`. -/
theorem C8_long_valid_number_is_not_answered :
    longOrderNumber ≠ "" ∧ ValidateLuhn longOrderNumber = true ∧
    decimalValue longOrderNumber < 9223372036854775808 ∧
    (UploadOrder ⟨[], []⟩ (some 1) longOrderNumber).code = 500 := by
  have hv := longOrderNumber_valid
  have hne := IsNumeric_ne_empty longOrderNumber hv.1
  have hlen : 255 < longOrderNumber.length := by rw [hv.2.2]; decide
  have hnone : GetOrderByNumber ⟨[], []⟩ longOrderNumber = none := rfl
  refine ⟨hne, hv.2.1, ?_, ?_⟩
  · exact (IsNumeric_of_digits longOrderNumber hne
      ((ValidateLuhn_iff longOrderNumber).1 hv.2.1).1).1 hv.1
  · rw [UploadOrder_valid_long ⟨[], []⟩ 1 longOrderNumber hv.1 hv.2.1 hlen hnone]

/-- C8, amended.  For an authenticated user and a non-empty body: when
`ValidateLuhn` rejects the body, `UploadOrder` answers 422.  When
`ValidateLuhn` accepts it and the number it denotes is below `2^63`,
`UploadOrder` does not answer 422 but goes on to the lookup: 200 when the
order exists and is owned by the user, 409 when it is owned by someone else,
and for a new number 202 when the body has at most 255 characters and 500
when it is longer.  Nothing is said here about a body that denotes `2^63` or
more. -/
theorem C8_checksum_gate (st : Store) (u : Int) (body : String) (hne : body ≠ "") :
    (ValidateLuhn body = false → (UploadOrder st (some u) body).code = 422) ∧
    (ValidateLuhn body = true → decimalValue body < 9223372036854775808 →
      (UploadOrder st (some u) body).code ≠ 422 ∧
      ((GetOrderByNumber st body = none ∧ body.length ≤ 255 ∧
          (UploadOrder st (some u) body).code = 202) ∨
        (GetOrderByNumber st body = none ∧ 255 < body.length ∧
          (UploadOrder st (some u) body).code = 500) ∨
        ((∃ o, GetOrderByNumber st body = some o ∧ o.UserID = u) ∧
          (UploadOrder st (some u) body).code = 200) ∨
        ((∃ o, GetOrderByNumber st body = some o ∧ o.UserID ≠ u) ∧
          (UploadOrder st (some u) body).code = 409))) ∧
    (ValidateLuhn body = true → decimalValue body < 9223372036854775808 →
      body.length ≤ 255 →
      (UploadOrder st (some u) body).code = 202 ∨ (UploadOrder st (some u) body).code = 200 ∨
        (UploadOrder st (some u) body).code = 409) := by
  have hcases : ValidateLuhn body = true → decimalValue body < 9223372036854775808 →
      ((GetOrderByNumber st body = none ∧ body.length ≤ 255 ∧
          (UploadOrder st (some u) body).code = 202) ∨
        (GetOrderByNumber st body = none ∧ 255 < body.length ∧
          (UploadOrder st (some u) body).code = 500) ∨
        ((∃ o, GetOrderByNumber st body = some o ∧ o.UserID = u) ∧
          (UploadOrder st (some u) body).code = 200) ∨
        ((∃ o, GetOrderByNumber st body = some o ∧ o.UserID ≠ u) ∧
          (UploadOrder st (some u) body).code = 409)) := by
    intro h2 hv
    have h1 : IsNumeric body = true :=
      (IsNumeric_of_digits body hne ((ValidateLuhn_iff body).1 h2).1).2 hv
    cases hg : GetOrderByNumber st body with
    | none =>
      by_cases hlen : body.length ≤ 255
      · left
        rw [UploadOrder_valid_none st u body h1 h2 hlen hg]
        exact ⟨rfl, hlen, rfl⟩
      · right; left
        rw [UploadOrder_valid_long st u body h1 h2 (by omega) hg]
        exact ⟨rfl, by omega, rfl⟩
    | some o =>
      right; right
      rw [UploadOrder_valid_some st u body o h1 h2 hg]
      by_cases hu : o.UserID = u
      · left
        rw [if_pos hu]
        exact ⟨⟨o, rfl, hu⟩, rfl⟩
      · right
        rw [if_neg hu]
        exact ⟨⟨o, rfl, hu⟩, rfl⟩
  refine ⟨?_, ?_, ?_⟩
  · intro h
    simp [UploadOrder, hne, h]
  · intro h2 hv
    refine ⟨?_, hcases h2 hv⟩
    rcases hcases h2 hv with ⟨_, _, e⟩ | ⟨_, _, e⟩ | ⟨_, e⟩ | ⟨_, e⟩ <;> rw [e] <;> decide
  · intro h2 hv hlen
    rcases hcases h2 hv with ⟨_, _, e⟩ | ⟨_, hl, _⟩ | ⟨_, e⟩ | ⟨_, e⟩
    · exact Or.inl e
    · omega
    · exact Or.inr (Or.inl e)
    · exact Or.inr (Or.inr e)

/-- Instance of C8 amended: `"79927398713"`. -/
theorem C8_checksum_gate_witness :
    "79927398713" ≠ "" ∧ ValidateLuhn "79927398713" = true ∧
    decimalValue "79927398713" < 9223372036854775808 ∧ "79927398713".length ≤ 255 ∧
    ((UploadOrder ⟨[], []⟩ (some 1) "79927398713").code = 202 ∨
      (UploadOrder ⟨[], []⟩ (some 1) "79927398713").code = 200 ∨
      (UploadOrder ⟨[], []⟩ (some 1) "79927398713").code = 409) :=
  ⟨by decide, by decide, by decide, by decide,
    (C8_checksum_gate ⟨[], []⟩ 1 "79927398713" (by decide)).2.2 (by decide) (by decide)
      (by decide)⟩

/-- C9. Check-digit construction.  For a string `p` of decimal digits and a
decimal digit `c`, `ValidateLuhn (p ++ c)` holds if and only if the value of
`c` is `(10 - T(p) mod 10) mod 10`, where `T(p)` sums the digits of `p` with
the rightmost digit of `p` and every second digit to its left doubled; so
exactly one decimal digit completes `p` to a valid string. -/
theorem C9_check_digit_construction (p : String)
    (hp : ∀ ch ∈ p.data, isDigitChar ch = true) :
    (∀ c : Char, isDigitChar c = true →
      (ValidateLuhn (p.push c) = true ↔ digitValue c = checkDigit p)) ∧
    (∃! c : Char, isDigitChar c = true ∧ ValidateLuhn (p.push c) = true) := by
  refine ⟨fun c hc => ValidateLuhn_push_iff p hp c hc, ?_⟩
  have hk : checkDigit p < 10 := by unfold checkDigit; omega
  have hn := digitChar_toNat (checkDigit p) hk
  have hd0 : isDigitChar (Char.ofNat (48 + checkDigit p)) = true := by
    rw [isDigitChar_iff, hn]; omega
  have h0 : '0'.toNat = 48 := by decide
  refine ⟨Char.ofNat (48 + checkDigit p), ⟨hd0, ?_⟩, ?_⟩
  · rw [ValidateLuhn_push_iff p hp _ hd0, digitValue, hn, h0]
    omega
  · rintro c ⟨hc, hv⟩
    have hv2 := (ValidateLuhn_push_iff p hp c hc).1 hv
    have hc2 := (isDigitChar_iff c).1 hc
    apply char_eq_of_toNat_eq
    rw [hn, ← hv2, digitValue, h0]
    omega

/-- Instance of C9: the payload `"7992739871"` has check digit 3;
`"79927398713"` is valid and `"79927398710"` is not. -/
theorem C9_check_digit_construction_witness :
    (∀ ch ∈ "7992739871".data, isDigitChar ch = true) ∧
    checkDigit "7992739871" = 3 ∧
    ValidateLuhn "79927398713" = true ∧ ValidateLuhn "79927398710" = false ∧
    (ValidateLuhn ("7992739871".push '3') = true ↔ digitValue '3' = checkDigit "7992739871") ∧
    (∃! c : Char, isDigitChar c = true ∧ ValidateLuhn ("7992739871".push c) = true) :=
  ⟨by decide, by decide, by decide, by decide,
    (C9_check_digit_construction "7992739871" (by decide)).1 '3' (by decide),
    (C9_check_digit_construction "7992739871" (by decide)).2⟩

/-- C10. Single-digit error detection.  If `ValidateLuhn s` holds, then
replacing the character at any position `i` of `s` by any other character
(in particular by any other decimal digit) gives a string that
`ValidateLuhn` rejects. -/
theorem C10_single_digit_error_detected (s : String) (hv : ValidateLuhn s = true)
    (i : Nat) (hi : i < s.data.length) (d : Char) (hd : d ≠ s.data[i]) :
    ValidateLuhn (String.mk (s.data.set i d)) = false := by
  cases hres : ValidateLuhn (String.mk (s.data.set i d))
  · rfl
  · exfalso
    rw [ValidateLuhn_eq, Bool.and_eq_true, beq_iff_eq] at hv hres
    obtain ⟨hall, hsum⟩ := hv
    obtain ⟨hall2, hsum2⟩ := hres
    simp only [List.length_set, List.map_set] at hsum2
    have hxd : isDigitChar s.data[i] = true :=
      (List.all_eq_true.1 hall) _ (List.getElem_mem _)
    have hdd : isDigitChar d = true :=
      (List.all_eq_true.1 hall2) d (List.mem_set s.data i hi d)
    have h0 : '0'.toNat = 48 := by decide
    have hx1 := (isDigitChar_iff _).1 hxd
    have hd1 := (isDigitChar_iff _).1 hdd
    have hlen : i < (s.data.map digitValue).length := by simpa using hi
    have hget : (s.data.map digitValue)[i] = digitValue s.data[i] := by simp
    have hne : digitValue d ≠ (s.data.map digitValue)[i] := by
      rw [hget]
      intro e
      apply hd
      apply char_eq_of_toNat_eq
      unfold digitValue at e
      omega
    have hlt : (s.data.map digitValue)[i] < 10 := by
      rw [hget]; exact digitValue_lt_of_isDigit _ hxd
    have := luhnLoop_set_ne (s.data.length % 2) (s.data.map digitValue) 0 i (digitValue d)
      hlen hlt (digitValue_lt_of_isDigit d hdd) hne
    omega

/-- Instance of C10: `"79927398713"` is valid, and with its last digit changed to
0 it is `"79927398710"`, which is invalid. -/
theorem C10_single_digit_error_detected_witness :
    ValidateLuhn "79927398713" = true ∧
    String.mk ("79927398713".data.set 10 '0') = "79927398710" ∧
    ValidateLuhn (String.mk ("79927398713".data.set 10 '0')) = false :=
  ⟨by decide, by decide,
    C10_single_digit_error_detected "79927398713" (by decide) 10 (by decide) '0' (by decide)⟩

/-- C11, as stated, fails: `ValidateLuhn ""` returns true.  The first loop
collects no digit, the sum stays 0, and `0 % 10 == 0`. -/
theorem C11_empty_string_accepted :
    ValidateLuhn "" = true ∧ ¬ (ValidateLuhn "" = false) := by
  decide

/-- C11, amended.  `ValidateLuhn ""` returns true; the empty string is turned
away by the callers of the validator instead.  `UploadOrder` answers 400 on
its explicit test `orderNumber == ""`, and the handler `WithdrawBalance`
answers 422 because `IsNumeric ""` is false; neither writes anything. -/
theorem C11_empty_string_rejected_by_handlers (st : Store) (u : Int) (sum : ℚ) :
    ValidateLuhn "" = true ∧ IsNumeric "" = false ∧
    UploadOrder st (some u) "" = ⟨400, st, none⟩ ∧
    Handler.WithdrawBalance st (some u) (some ("", sum)) = ⟨422, st⟩ := by
  have h1 : ValidateLuhn "" = true := by decide
  have h2 : IsNumeric "" = false := by decide
  refine ⟨h1, h2, ?_, ?_⟩
  · simp [UploadOrder]
  · simp [Handler.WithdrawBalance, h2]

/-- C13, evaluated on the code.  The balance is 10 and two calls of
`WithdrawBalance` of amount 10 run statement by statement.  Under the
interleaving in which both calls run the two `SELECT`s of `GetUserBalance`
before either runs its `INSERT`, both calls return `nil`, two withdrawals of
10 are recorded and the balance is -10, also as the code computes it.  Run
one after the other, the first call succeeds and the second returns
`"insufficient funds"`. -/
theorem C13_both_withdrawals_succeed :
    (GetUserBalance ⟨[⟨"79927398713", 1, StatusProcessed, 10⟩], []⟩ 1).Current = 10 ∧
    isInterleaving [true, true, false, false, true, false] ∧
    runSchedule [true, true, false, false, true, false]
        (twoWithdrawals ⟨[⟨"79927398713", 1, StatusProcessed, 10⟩], []⟩ 1 "18" "26" 10) =
      ⟨⟨[⟨"79927398713", 1, StatusProcessed, 10⟩], [⟨1, "18", 10⟩, ⟨1, "26", 10⟩]⟩,
        ⟨1, "18", 10, WithdrawPC.returned none⟩, ⟨1, "26", 10, WithdrawPC.returned none⟩⟩ ∧
    (GetUserBalance ⟨[⟨"79927398713", 1, StatusProcessed, 10⟩],
        [⟨1, "18", 10⟩, ⟨1, "26", 10⟩]⟩ 1).Current = -10 ∧
    (GetUserBalanceFloat64 ⟨[⟨"79927398713", 1, StatusProcessed, 10⟩],
        [⟨1, "18", 10⟩, ⟨1, "26", 10⟩]⟩ 1).Current = -10 ∧
    runSchedule [true, true, true, false, false, false]
        (twoWithdrawals ⟨[⟨"79927398713", 1, StatusProcessed, 10⟩], []⟩ 1 "18" "26" 10) =
      ⟨⟨[⟨"79927398713", 1, StatusProcessed, 10⟩], [⟨1, "18", 10⟩]⟩,
        ⟨1, "18", 10, WithdrawPC.returned none⟩,
        ⟨1, "26", 10, WithdrawPC.returned (some "insufficient funds")⟩⟩ := by
  have hA : accruedOf 1 [⟨"79927398713", 1, StatusProcessed, 10⟩] = 10 := by
    simp +decide [accruedOf]
  have hW0 : withdrawnOf 1 [] = 0 := rfl
  have hW1 : withdrawnOf 1 [⟨1, "18", 10⟩] = 10 := by simp [withdrawnOf]
  have hW2 : withdrawnOf 1 [⟨1, "18", 10⟩, ⟨1, "26", 10⟩] = 20 := by
    simp [withdrawnOf]; norm_num
  have hn : numeric10_2 10 = some 10 := by
    have h := numeric10_2_intCast 10 (by norm_num) (by norm_num)
    norm_num at h
    exact h
  have hfresh : ∀ (cur : Store) (o : String) (w : ℚ), fitsVarchar 255 o = true →
      withdrawStep cur ⟨1, o, 10, WithdrawPC.balanced ⟨10, w⟩⟩ =
        (⟨cur.orders, cur.withdrawals ++ [⟨1, o, 10⟩]⟩, ⟨1, o, 10, WithdrawPC.returned none⟩) := by
    intro cur o w hfit
    exact withdrawStep_insert cur 1 o 10 10 _ (by rw [float64_10]; norm_num) hfit hn
  have hstale : ∀ (cur : Store) (o : String) (w : ℚ),
      withdrawStep cur ⟨1, o, 10, WithdrawPC.balanced ⟨0, w⟩⟩ =
        (cur, ⟨1, o, 10, WithdrawPC.returned (some "insufficient funds")⟩) := by
    intro cur o w
    exact withdrawStep_insufficient cur 1 o 10 _ (by rw [float64_10]; norm_num)
  have e10 : float64 (10 - 0) = 10 := by rw [sub_zero, float64_10]
  have e0 : float64 (10 - 10) = 0 := by rw [sub_self, float64_zero]
  refine ⟨?_, ?_, ?_, ?_, ?_, ?_⟩
  · rw [GetUserBalance_eq]; simp only [hA, hW0]; norm_num
  · unfold isInterleaving; decide
  · simp only [runSchedule, twoWithdrawals, withdrawStep_start, withdrawStep_accrued, hA, hW0,
      float64_10, float64_zero, e10]
    rw [hfresh _ "18" _ (by decide)]
    simp only [runSchedule]
    rw [hfresh _ "26" _ (by decide)]
    simp [runSchedule]
  · rw [GetUserBalance_eq]; simp only [hA, hW2]; norm_num
  · rw [GetUserBalanceFloat64_eq]
    simp only [hA, hW2, float64_10, float64_20]
    norm_num
    exact float64_neg_10
  · simp only [runSchedule, twoWithdrawals, withdrawStep_start, withdrawStep_accrued, hA, hW0,
      float64_10, float64_zero, e10]
    rw [hfresh _ "18" _ (by decide)]
    simp only [runSchedule, withdrawStep_start, withdrawStep_accrued, hA, List.nil_append, hW1,
      float64_10, e0]
    rw [hstale]

/-- C14, evaluated on the code.  `processPendingOrders` queries nothing and
changes nothing, so `processLoop` leaves every database as it is under every
sequence of ticks.  The order `"79927398713"`, left in PROCESSING by `processOrder`
after a 204 reply, is still in PROCESSING after three ticks, although one more
run of `processOrder` with the reply `PROCESSED, 12.5` would make it PROCESSED. -/
theorem C14_tick_performs_no_step (events : List WorkerEvent) (st : Store) :
    OrderProcessor.processPendingOrders st = (st, []) ∧
    OrderProcessor.processLoop events st = (st, []) ∧
    processOrder ⟨[⟨"79927398713", 1, StatusNew, 0⟩], []⟩ "79927398713"
        (HTTPReply.response 204 "" none) =
      ⟨[⟨"79927398713", 1, StatusProcessing, 0⟩], []⟩ ∧
    OrderProcessor.processLoop [WorkerEvent.tick, WorkerEvent.tick, WorkerEvent.tick]
        ⟨[⟨"79927398713", 1, StatusProcessing, 0⟩], []⟩ =
      (⟨[⟨"79927398713", 1, StatusProcessing, 0⟩], []⟩, []) ∧
    processOrder ⟨[⟨"79927398713", 1, StatusProcessing, 0⟩], []⟩ "79927398713"
        (HTTPReply.response 200 "" (some ⟨"79927398713", StatusProcessed, 12.5⟩)) =
      ⟨[⟨"79927398713", 1, StatusProcessed, 12.5⟩], []⟩ := by
  refine ⟨rfl, processLoop_eq events st, ?_, processLoop_eq _ _, ?_⟩
  · rw [processOrder_other _ _ _ (by rintro ⟨h, r, e, _⟩; cases e)]
    simp
  · have hr : roundNumeric 12.5 = 12.5 := by
      have h := roundNumeric_hundredths 1250
      norm_num at h ⊢
      exact h
    rw [processOrder_terminal _ _ "" ⟨"79927398713", StatusProcessed, 12.5⟩ 12.5 (Or.inl rfl)
      (numeric10_2_of_bounds _ _ hr (by norm_num) (by norm_num))]
    simp

end Gophermart
